import Mathlib

/-
  Verification development for the cc-controller repository.

  The controller (src/controller.go, `ResourceController`) manages tasks and
  per-resource mutual exclusion.  Tasks are persisted in a document database
  (collection `tasks`, keyed by task id); resources live in an in-memory map
  keyed by resource name; staged tasks live in a map from resource key to a
  buffered channel of `*Task` values (nil sentinels included).

  The embedding below models:
    * the document database as a `List Task` (Save is insert-or-update by
      primary key; the persistence facade itself, database.go, is not part of
      the provided sources, so its Save contract is modelled from the spec);
    * the `resources` map as an association list `List (String × ResourceStatus)`
      (the `Resource` struct stores `Name` equal to its map key, so only the
      status is kept as the value);
    * the `stage` sync.Map as an association list from key to channel contents,
      a channel being a FIFO `List (Option Task)` (front = next value received,
      `none` is the nil sentinel);
    * Go float64 values (priorities, run times) as rationals;
    * the external priority-queue and timetable services, for the purposes of
      the controller-level transition system, as a combined multiset of
      (key, id) entries pushed by AddTask and consumed by the stage loop;
    * a `panic` result for the nil-pointer dereferences the Go code can hit.
-/

namespace CCController

/-! ## Task and resource model (src/tasks.go, src/resource.go) -/

def StatusCreated : String := "created"

def StatusQueued : String := "queued"

def StatusScheduled : String := "scheduled"

def StatusPending : String := "pending"

def StatusCancelled : String := "cancelled"

def StatusStarted : String := "started"

def StatusError : String := "error"

def StatusComplete : String := "complete"

inductive ResourceStatus where
  | free
  | locked
deriving DecidableEq, Repr

/-- A task (src/tasks.go).  `meta` is opaque passthrough data; `priority` and
`runAt` mirror the Go `float64` and `*time.Time` fields (`runAt` kept as the
formatted string, only its presence and identity matter to the controller). -/
structure Task where
  id : String
  key : String
  meta : String
  priority : ℚ
  runAt : Option String
  status : String
deriving DecidableEq, Repr

/-- A status change event as far as the claims are concerned: the `_status`
and `_id` fields attached to the `taskStatusChanged` meta. -/
structure Evt where
  status : String
  taskId : String
deriving DecidableEq, Repr

/-! ## Persistence model

database.go is not among the provided sources.  Modelled from the spec:
"Save uses insert-or-update by primary key (tasks by `id`, ...): on
primary-key conflict, patch the entity's `status` field." -/

/-- Patch the status of every document whose id is `i` (ids are unique on
reachable states). -/
def patchStatus (db : List Task) (i : String) (st : String) : List Task :=
  db.map (fun r => if r.id = i then { r with status := st } else r)

/-- Modelled from the spec: insert-or-update by primary key; on conflict only
the status field is patched (database.go is not in the provided sources). -/
def saveTask (db : List Task) (t : Task) : List Task :=
  if db.any (fun r => r.id = t.id) then patchStatus db t.id t.status else db ++ [t]

/-- The query `FOR t IN tasks FILTER t._key == @key RETURN t`. -/
def queryById (db : List Task) (i : String) : List Task :=
  db.filter (fun r => r.id = i)

/-! ## Controller state (src/controller.go, `ResourceController`) -/

/-- Contents of one stage channel: a FIFO of `*Task` values, `none` being the
nil sentinel used by the StartTask probe protocol. -/
abbrev Chan := List (Option Task)

/-- The controller state together with the persisted task collection and the
combined contents of the external priority-queue/timetable services
(`queue` holds the (key, id) pairs currently enqueued remotely). -/
structure Sys where
  resources : List (String × ResourceStatus)
  stage : List (String × Chan)
  db : List Task
  queue : List (String × String)
deriving DecidableEq, Repr

def lookupRes : List (String × ResourceStatus) → String → Option ResourceStatus
  | [], _ => none
  | p :: rs, k => if p.1 = k then some p.2 else lookupRes rs k

def setRes : List (String × ResourceStatus) → String → ResourceStatus →
    List (String × ResourceStatus)
  | [], _, _ => []
  | p :: rs, k, st => (if p.1 = k then (p.1, st) else p) :: setRes rs k st

def lookupStage : List (String × Chan) → String → Option Chan
  | [], _ => none
  | p :: sg, k => if p.1 = k then some p.2 else lookupStage sg k

def setStage : List (String × Chan) → String → Chan → List (String × Chan)
  | [], _, _ => []
  | p :: sg, k, ch => (if p.1 = k then (p.1, ch) else p) :: setStage sg k ch

def deleteStage : List (String × Chan) → String → List (String × Chan)
  | [], _ => []
  | p :: sg, k => if p.1 = k then deleteStage sg k else p :: deleteStage sg k

/-- Result of a controller operation.  `panic` marks the nil-pointer
dereference `ctrl.resources[key].Status` performed on an unregistered key. -/
inductive OpResult where
  | ok
  | err (msg : String)
  | panic
deriving DecidableEq, Repr

/-- Outcome of a controller operation: result, post state, tasks handed to
`taskModel.Save`, resources handed to `resourceModel.Save`, and the status
change events passed to `Notify`. -/
structure OpOut where
  res : OpResult
  state : Sys
  savedTasks : List Task
  savedResources : List (String × ResourceStatus)
  events : List Evt
deriving DecidableEq, Repr

def NoStagedTaskError : String := "no staged task"

def ResourceUnavailableError : String := "resource unavailable"

def ResourceExistsError : String := "resource exists"

def TaskAddFailedError : String := "task add failed"

def TaskRemoveFailedError : String := "task remove failed"

def TaskAlreadyStartedError : String := "task already started"

def TaskNotFoundError : String := "task not found"

def TaskNotStartedError : String := "task not started"

/-! ## StartTask (src/controller.go lines 541-581)

The Go protocol: load the channel (absent: `no staged task`); send a nil
sentinel; receive one value.  Receiving nil means the slot was empty
(`no staged task`, the now-empty channel stays stored).  Receiving a task:
if the resource for `key` is unregistered the `ctrl.resources[key].Status`
read dereferences a nil pointer (panic); if it is locked, one more value is
drained (the sentinel) and the task is sent back (`resource unavailable`);
otherwise the slot is deleted, a re-entrant `started` task is rejected, the
resource is locked and persisted and the task is started and persisted. -/

def StartTask (s : Sys) (key : String) : OpOut :=
  match lookupStage s.stage key with
  | none => ⟨.err NoStagedTaskError, s, [], [], []⟩
  | some ch =>
    match ch with
    | [] =>
      -- channel empty: the sentinel is sent and immediately received back
      ⟨.err NoStagedTaskError, { s with stage := setStage s.stage key [] }, [], [], []⟩
    | none :: rest =>
      -- front of the channel is a sentinel: received back, slot judged empty
      ⟨.err NoStagedTaskError,
        { s with stage := setStage s.stage key (rest ++ [none]) }, [], [], []⟩
    | some task :: rest =>
      match lookupRes s.resources key with
      | none => ⟨.panic, s, [], [], []⟩
      | some rst =>
        if rst = ResourceStatus.locked then
          -- drain one more value (the sentinel) and push the task back
          ⟨.err ResourceUnavailableError,
            { s with stage := setStage s.stage key ((rest ++ [none]).tail ++ [some task]) },
            [], [], []⟩
        else
          let stage' := deleteStage s.stage key
          if task.status = StatusStarted then
            ⟨.err TaskAlreadyStartedError, { s with stage := stage' }, [], [], []⟩
          else
            let task' := { task with status := StatusStarted }
            ⟨.ok,
              { s with
                  resources := setRes s.resources key ResourceStatus.locked
                  stage := stage'
                  db := saveTask s.db task' },
              [task'], [(key, ResourceStatus.locked)], [⟨StatusStarted, task'.id⟩]⟩

/-! ## CompleteTask (src/controller.go lines 407-438)

Queries the task by id (`task not found` when absent), requires status
`started` (`task not started` otherwise), then frees the resource for
`task.Key` (a nil dereference when no such resource is registered), assigns
the provided status — without validating it — and persists task and
resource. -/

def CompleteTask (s : Sys) (taskId : String) (status : String) : OpOut :=
  match queryById s.db taskId with
  | [] => ⟨.err TaskNotFoundError, s, [], [], []⟩
  | task :: _ =>
    if task.status ≠ StatusStarted then
      ⟨.err TaskNotStartedError, s, [], [], []⟩
    else
      match lookupRes s.resources task.key with
      | none => ⟨.panic, s, [], [], []⟩
      | some _ =>
        let task' := { task with status := status }
        ⟨.ok,
          { s with
              resources := setRes s.resources task.key ResourceStatus.free
              db := saveTask s.db task' },
          [task'], [(task.key, ResourceStatus.free)], [⟨status, taskId⟩]⟩

/-! ## AddResource (src/controller.go lines 345-354) -/

def AddResource (s : Sys) (name : String) : OpOut :=
  if (lookupRes s.resources name).isSome then
    ⟨.err ResourceExistsError, s, [], [], []⟩
  else
    ⟨.ok, { s with resources := s.resources ++ [(name, ResourceStatus.free)] },
      [], [(name, ResourceStatus.free)], []⟩

/-! ## AddTask (src/controller.go lines 363-401) -/

/-- The external hosts the broker can be pointed at. -/
inductive Host where
  | timetable
  | priorityQueue
  | notifier
deriving DecidableEq, Repr

/-- The reply of one broker call: either a jrpc error object (`Message`
extracted) or a numeric result (the Go code casts the float64 result to
int before comparing with 0). -/
inductive BrokerReply where
  | errObj (msg : String)
  | num (n : ℤ)
deriving DecidableEq, Repr

/-- The one enqueue call AddTask makes: host, method, and the params map
`{key, id}` extended with either `runAt` or `priority`. -/
structure BrokerCallRec where
  host : Host
  method : String
  key : String
  id : String
  priority : Option ℚ
  runAt : Option String
deriving DecidableEq, Repr

structure AddTaskOut where
  res : OpResult
  task : Task
  db : List Task
  call : BrokerCallRec
  savedTasks : List Task
  events : List Evt
deriving DecidableEq, Repr

/-- AddTask against a broker that answers the enqueue call with `reply`.
If `runAt` is set the task goes to the timetable via `insert` (status
`scheduled`), otherwise to the priority queue via `push` (status `queued`).
A broker error propagates its message; a non-zero numeric result is
`task add failed`; both happen before the status assignment and before any
`Save`.  On success the status is assigned, the task saved, and a
`taskStatusChanged` event emitted (its notify outcome is ignored). -/
def AddTask (t : Task) (reply : BrokerReply) (db : List Task) : AddTaskOut :=
  let call : BrokerCallRec :=
    match t.runAt with
    | some r => ⟨Host.timetable, "insert", t.key, t.id, none, some r⟩
    | none => ⟨Host.priorityQueue, "push", t.key, t.id, some t.priority, none⟩
  let status := if t.runAt.isSome then StatusScheduled else StatusQueued
  match reply with
  | .errObj msg => ⟨.err msg, t, db, call, [], []⟩
  | .num n =>
    if n ≠ 0 then ⟨.err TaskAddFailedError, t, db, call, [], []⟩
    else
      let t' := { t with status := status }
      ⟨.ok, t', saveTask db t', call, [t'], [⟨status, t.id⟩]⟩

/-! ## StageTask (src/controller.go lines 584-605) -/

structure StageTaskOut where
  state : Sys
  savedTasks : List Task
  events : List Evt
deriving DecidableEq, Repr

/-- StageTask: when a slot already exists for `task.Key` nothing at all
happens; otherwise the task is (optionally) transitioned to `pending` and
persisted, a fresh channel holding just the task is stored, and a pending
event is emitted. -/
def StageTask (s : Sys) (t : Task) (changeStatus : Bool) : StageTaskOut :=
  match lookupStage s.stage t.key with
  | some _ => ⟨s, [], []⟩
  | none =>
    let t' := if changeStatus then { t with status := StatusPending } else t
    let db' := if changeStatus then saveTask s.db t' else s.db
    ⟨{ s with db := db', stage := s.stage ++ [(t.key, [some t'])] },
      if changeStatus then [t'] else [], [⟨StatusPending, t'.id⟩]⟩

/-! ## RemoveTask (src/controller.go lines 489-535) -/

/-- RemoveTask against a broker answering the external `remove` call (made
only for queued/scheduled tasks) with `reply`.  The persisted document is
removed; for queued/scheduled tasks the corresponding remote entry is
removed as well. -/
def RemoveTask (s : Sys) (taskId : String) (reply : BrokerReply) : OpOut :=
  match queryById s.db taskId with
  | [] => ⟨.err TaskNotFoundError, s, [], [], []⟩
  | task :: _ =>
    if task.status ≠ StatusQueued ∧ task.status ≠ StatusScheduled ∧
        task.status ≠ StatusPending then
      ⟨.err TaskRemoveFailedError, s, [], [], []⟩
    else if task.status = StatusQueued ∨ task.status = StatusScheduled then
      match reply with
      | .errObj msg => ⟨.err msg, s, [], [], []⟩
      | .num n =>
        if n ≠ 0 then ⟨.err TaskRemoveFailedError, s, [], [], []⟩
        else
          ⟨.ok,
            { s with
                db := s.db.filter (fun r => ¬ r.id = taskId)
                queue := s.queue.filter (fun e => ¬ (e.1 = task.key ∧ e.2 = task.id)) },
            [], [], [⟨StatusCancelled, task.id⟩]⟩
    else
      ⟨.ok, { s with db := s.db.filter (fun r => ¬ r.id = taskId) },
        [], [], [⟨StatusCancelled, task.id⟩]⟩

/-! ## Stage loop step (src/controller.go lines 609-666)

One successful poll of the stage loop for resource key `k`: a remote entry
(k, id) is popped from the external services, the task is re-fetched from
the database by id (dropped when missing), and staged with
`changeStatus = true`. -/

def stagePollStep (s : Sys) (k taskId : String) : Sys :=
  if (lookupStage s.stage k).isSome then s
  else
    let s1 := { s with queue := s.queue.erase (k, taskId) }
    match queryById s1.db taskId with
    | [] => s1
    | t :: _ => (StageTask s1 t true).state

/-! ## Startup recovery (src/api.go, NewApiV1 lines 360-375)

On boot every persisted resource is re-registered and every persisted task
with status `pending` is re-staged with `changeStatus = false` — with no
check that a resource is registered for the task's key. -/

/-- Registration of every persisted resource, in order. -/
def addResFold (ns : List String) (s : Sys) : Sys :=
  ns.foldl (fun s n => (AddResource s n).state) s

/-- Re-staging of the recovered pending tasks, in order, with
`changeStatus = false`. -/
def stageFold (ts : List Task) (s : Sys) : Sys :=
  ts.foldl (fun s t => (StageTask s t false).state) s

def bootState (rescNames : List String) (db : List Task) : Sys :=
  stageFold (db.filter (fun t => t.status = StatusPending))
    (addResFold rescNames ⟨[], [], db, []⟩)

/-! ## RPC surface (src/api.go) -/

/-- The ApiV1 handler methods. -/
inductive ApiHandler where
  | addResource
  | addTask
  | completeTask
  | getTask
  | listPriorityQueue
  | listTimetable
  | startTask
  | removeTask
deriving DecidableEq, Repr

/-- The registration table built by NewApiV1 (src/api.go lines 377-384).
Note the last line of the source: `s.Register("removeTask",
jrpc2.Method{Method: api.StartTask})` — the name `removeTask` is bound to
the StartTask handler. -/
def apiRegistrations : List (String × ApiHandler) :=
  [("addResource", ApiHandler.addResource),
   ("addTask", ApiHandler.addTask),
   ("completeTask", ApiHandler.completeTask),
   ("getTask", ApiHandler.getTask),
   ("listPriorityQueue", ApiHandler.listPriorityQueue),
   ("listTimetable", ApiHandler.listTimetable),
   ("startTask", ApiHandler.startTask),
   ("removeTask", ApiHandler.startTask)]

/-- The jrpc error code each handler attaches to a failed controller call
(src/api.go lines 12-22). -/
def handlerErrorCode : ApiHandler → ℤ
  | ApiHandler.addResource => -32004
  | ApiHandler.addTask => -32003
  | ApiHandler.completeTask => -32005
  | ApiHandler.getTask => -32006
  | ApiHandler.listPriorityQueue => -32007
  | ApiHandler.listTimetable => -32008
  | ApiHandler.startTask => -32011
  | ApiHandler.removeTask => -32010

/-- Which controller operation each handler invokes. -/
inductive CtrlOpName where
  | addResource
  | addTask
  | completeTask
  | getTask
  | listPriorityQueue
  | listTimetable
  | startTask
  | removeTask
deriving DecidableEq, Repr

def handlerCtrlOp : ApiHandler → CtrlOpName
  | ApiHandler.addResource => CtrlOpName.addResource
  | ApiHandler.addTask => CtrlOpName.addTask
  | ApiHandler.completeTask => CtrlOpName.completeTask
  | ApiHandler.getTask => CtrlOpName.getTask
  | ApiHandler.listPriorityQueue => CtrlOpName.listPriorityQueue
  | ApiHandler.listTimetable => CtrlOpName.listTimetable
  | ApiHandler.startTask => CtrlOpName.startTask
  | ApiHandler.removeTask => CtrlOpName.removeTask

/-! ## RemoveTaskParams.FromPositional (src/api.go lines 328-336)

The Go method requires `len(args) >= 2` but then reads `args[3]`.  Values
are modelled as strings (the subsequent `.(string)` type assertion is not
the point of the claim); an out-of-range index access is the `panic`
outcome. -/

inductive ParseOut where
  | err (msg : String)
  | panic
  | ok (taskId : String)
deriving DecidableEq, Repr

def removeTaskFromPositional (args : List String) : ParseOut :=
  if args.length < 2 then ParseOut.err "key and id paramters are required"
  else
    match args.get? 3 with
    | none => ParseOut.panic
    | some v => ParseOut.ok v

/-! ## GetAverageRunTime (src/tasks.go lines 77-96) -/

/-- A task stat document (src/tasks.go): creation instant (modelled as an
integer timestamp), task key, and run time in seconds (float64, modelled as
a rational). -/
structure TaskStat where
  created : ℤ
  key : String
  runTime : ℚ
deriving DecidableEq, Repr

/-- Insertion into a list sorted by `created` descending. -/
def insertDesc (x : TaskStat) : List TaskStat → List TaskStat
  | [] => [x]
  | y :: ys => if y.created ≤ x.created then x :: y :: ys else y :: insertDesc x ys

/-- Sort by `created` descending (the `SORT t.created DESC` of the query). -/
def sortByCreatedDesc : List TaskStat → List TaskStat
  | [] => []
  | x :: xs => insertDesc x (sortByCreatedDesc xs)

/-- Truncation toward zero, the effect of Go's `int64(x)` conversion. -/
def ratTrunc (x : ℚ) : ℤ := if 0 ≤ x then ⌊x⌋ else ⌈x⌉

/-- The at most 10 most recent stats for `key`: filter by key, sort by
`created` descending, limit 10. -/
def recentStats (stats : List TaskStat) (key : String) : List TaskStat :=
  (sortByCreatedDesc (stats.filter (fun t => t.key = key))).take 10

/-- GetAverageRunTime over the persisted stats: 0 when no stat matches,
otherwise `float64(int64(avg*20+0.5))/20` over the at most 10 most recent
matching stats. -/
def GetAverageRunTime (stats : List TaskStat) (key : String) : ℚ :=
  let l := recentStats stats key
  match l with
  | [] => 0
  | _ =>
    let sum := l.foldl (fun acc t => acc + t.runTime) 0
    let avg := sum / (l.length : ℚ)
    (ratTrunc (avg * 20 + 1/2) : ℚ) / 20

/-- The arithmetic mean of the run times of a list of stats. -/
def avgRunTime (l : List TaskStat) : ℚ :=
  (l.foldl (fun acc t => acc + t.runTime) 0) / (l.length : ℚ)

/-! ## The controller transition system

Operations as invoked through the RPC surface and the stage loop, acting on
`Sys`.  Persistence and notification are assumed available (their failures
do not change which states are reachable in this model); the broker replies
for the external enqueue/remove calls are inputs of the corresponding
operations.  Operations whose Go execution panics produce no successor
state (the process dies), which the `guard` encodes. -/

inductive Op where
  | addResource (name : String)
  | addTask (t : Task) (reply : BrokerReply)
  | stagePoll (k taskId : String)
  | startTask (k : String)
  | completeTask (taskId status : String)
  | removeTask (taskId : String) (reply : BrokerReply)
deriving DecidableEq, Repr

/-- On a successful AddTask the external service records the pushed
(key, id) entry. -/
def addTaskStep (s : Sys) (t : Task) (reply : BrokerReply) : Sys :=
  let o := AddTask t reply s.db
  { s with
      db := o.db
      queue := if o.res = OpResult.ok then s.queue ++ [(t.key, t.id)] else s.queue }

def stepf (s : Sys) : Op → Sys
  | Op.addResource n => (AddResource s n).state
  | Op.addTask t reply => addTaskStep s t reply
  | Op.stagePoll k taskId => stagePollStep s k taskId
  | Op.startTask k => (StartTask s k).state
  | Op.completeTask taskId st => (CompleteTask s taskId st).state
  | Op.removeTask taskId reply => (RemoveTask s taskId reply).state

/-- The channel value is not a task carrying id `i`. -/
def chanValIdNe (i : String) : Option Task → Prop
  | none => True
  | some t => t.id ≠ i

instance (i : String) (ot : Option Task) : Decidable (chanValIdNe i ot) := by
  cases ot <;> (unfold chanValIdNe; infer_instance)

/-- A task id never seen by the system: AddTask ids are fresh version 1
UUIDs. -/
def freshId (s : Sys) (i : String) : Prop :=
  (∀ r ∈ s.db, r.id ≠ i) ∧ (∀ e ∈ s.queue, e.2 ≠ i) ∧
    (∀ p ∈ s.stage, ∀ ot ∈ p.2, chanValIdNe i ot)

instance (s : Sys) (i : String) : Decidable (freshId s i) := by
  unfold freshId; infer_instance

/-- Environment conditions under which an operation fires: AddTask uses a
fresh UUID; the stage loop polls a registered resource whose slot is empty
and pops an entry actually held by the external services; panicking
executions have no successor state. -/
def guard (s : Sys) : Op → Prop
  | Op.addTask t _ => freshId s t.id
  | Op.stagePoll k taskId =>
      (k, taskId) ∈ s.queue ∧ (lookupRes s.resources k).isSome ∧
        lookupStage s.stage k = none
  | Op.startTask k => (StartTask s k).res ≠ OpResult.panic
  | Op.completeTask taskId st => (CompleteTask s taskId st).res ≠ OpResult.panic
  | _ => True

instance (s : Sys) (op : Op) : Decidable (guard s op) := by
  cases op <;> (unfold guard; infer_instance)

def sysInit : Sys := ⟨[], [], [], []⟩

/-- States reachable from the empty initial state by any sequence of
operations. -/
inductive Reachable : Sys → Prop where
  | init : Reachable sysInit
  | step {s : Sys} (op : Op) : Reachable s → guard s op → Reachable (stepf s op)

/-- `True` unless the operation is a CompleteTask call that re-assigns the
`started` status. -/
def completeNotStarted : Op → Prop
  | Op.completeTask _ st => st ≠ StatusStarted
  | _ => True

instance (op : Op) : Decidable (completeNotStarted op) := by
  cases op <;> (unfold completeNotStarted; infer_instance)

/-- States reachable when CompleteTask is never invoked with the status
value `started`. -/
inductive ReachableR : Sys → Prop where
  | init : ReachableR sysInit
  | step {s : Sys} (op : Op) :
      ReachableR s → guard s op → completeNotStarted op → ReachableR (stepf s op)

/-! ## The mutual-exclusion invariant -/

/-- Number of persisted tasks with key `n` and status `started`. -/
def startedCount : List Task → String → ℕ
  | [], _ => 0
  | t :: ts, n =>
    (if t.key = n ∧ t.status = StatusStarted then 1 else 0) + startedCount ts n

/-- The per-resource mutual exclusion property, as the claim states it: a
registered resource is locked exactly when exactly one persisted task with
its name is started. -/
def MutexInv (s : Sys) : Prop :=
  ∀ p ∈ s.resources,
    (p.2 = ResourceStatus.locked ↔ startedCount s.db p.1 = 1)

instance (s : Sys) : Decidable (MutexInv s) := by
  unfold MutexInv; infer_instance

/-- The lookup-based form of the mutual exclusion property used for the
induction: a locked resource has exactly one started task, a free resource
has none. -/
def MutexCount (s : Sys) : Prop :=
  ∀ k : String, ∀ st : ResourceStatus, lookupRes s.resources k = some st →
    startedCount s.db k = if st = ResourceStatus.locked then 1 else 0

/-- The full inductive invariant of the transition system. -/
structure Inv (s : Sys) : Prop where
  mutex : MutexCount s
  uniq : s.db.Pairwise (fun a b => a.id ≠ b.id)
  rkeys : (s.resources.map Prod.fst).Nodup
  skeys : (s.stage.map Prod.fst).Nodup
  qids : (s.queue.map Prod.snd).Nodup
  startedReg : ∀ r ∈ s.db, r.status = StatusStarted →
    (lookupRes s.resources r.key).isSome
  queueInv : ∀ e ∈ s.queue, ∃ t ∈ s.db, t.id = e.2 ∧ t.key = e.1 ∧
    (t.status = StatusQueued ∨ t.status = StatusScheduled)
  stageInv : ∀ p ∈ s.stage, ∃ t : Task, p.2 = [some t] ∧ t.key = p.1 ∧
    t.status = StatusPending ∧ ∀ r ∈ s.db, r.id = t.id → r = t
  stageIds : ∀ p ∈ s.stage, ∀ q ∈ s.stage, ∀ t u : Task,
    p.2 = [some t] → q.2 = [some u] → t.id = u.id → p = q

/-! ## Lemmas about the association-list maps -/

theorem lookupStage_setStage_self (sg : List (String × Chan)) (k : String) (v : Chan) :
    lookupStage (setStage sg k v) k = (lookupStage sg k).map (fun _ => v) := by
  induction sg with
  | nil => rfl
  | cons p sg ih => by_cases h : p.1 = k <;> simp [lookupStage, setStage, h, ih]

theorem lookupStage_setStage_ne (sg : List (String × Chan)) (k k' : String) (v : Chan)
    (h : k' ≠ k) : lookupStage (setStage sg k v) k' = lookupStage sg k' := by
  induction sg with
  | nil => rfl
  | cons p sg ih =>
    by_cases hp : p.1 = k
    · simp [lookupStage, setStage, hp, Ne.symm h, ih]
    · by_cases hq : p.1 = k' <;> simp [lookupStage, setStage, hp, hq, h, Ne.symm h, ih]

theorem lookupStage_append_none (sg : List (String × Chan)) (k : String) (ch : Chan)
    (h : lookupStage sg k = none) : lookupStage (sg ++ [(k, ch)]) k = some ch := by
  induction sg with
  | nil => simp [lookupStage]
  | cons p sg ih =>
    by_cases hp : p.1 = k
    · simp [lookupStage, hp] at h
    · simp only [lookupStage, hp, if_neg] at h
      simpa [lookupStage, hp] using ih h

theorem lookupStage_append_some (sg l : List (String × Chan)) (k : String) (v : Chan)
    (h : lookupStage sg k = some v) : lookupStage (sg ++ l) k = some v := by
  induction sg with
  | nil => simp [lookupStage] at h
  | cons p sg ih =>
    by_cases hp : p.1 = k
    · simp_all [lookupStage, hp]
    · simp only [lookupStage, hp, if_neg] at h
      simpa [lookupStage, hp] using ih h

theorem lookupStage_append_ne (sg : List (String × Chan)) (k k' : String) (ch : Chan)
    (h : k' ≠ k) : lookupStage (sg ++ [(k, ch)]) k' = lookupStage sg k' := by
  induction sg with
  | nil => simp [lookupStage, Ne.symm h]
  | cons p sg ih => by_cases hp : p.1 = k' <;> simp [lookupStage, hp, ih]

theorem lookupStage_deleteStage_self (sg : List (String × Chan)) (k : String) :
    lookupStage (deleteStage sg k) k = none := by
  induction sg with
  | nil => rfl
  | cons p sg ih => by_cases hp : p.1 = k <;> simp [lookupStage, deleteStage, hp, ih]

theorem lookupStage_deleteStage_ne (sg : List (String × Chan)) (k k' : String)
    (h : k' ≠ k) : lookupStage (deleteStage sg k) k' = lookupStage sg k' := by
  induction sg with
  | nil => rfl
  | cons p sg ih =>
    by_cases hp : p.1 = k
    · have : ¬ p.1 = k' := by rw [hp]; exact Ne.symm h
      simp [lookupStage, deleteStage, hp, this, h, Ne.symm h, ih]
    · by_cases hq : p.1 = k' <;> simp [lookupStage, deleteStage, hp, hq, h, Ne.symm h, ih]

theorem lookupRes_setRes_self (rs : List (String × ResourceStatus)) (k : String)
    (st : ResourceStatus) :
    lookupRes (setRes rs k st) k = (lookupRes rs k).map (fun _ => st) := by
  induction rs with
  | nil => rfl
  | cons p rs ih => by_cases h : p.1 = k <;> simp [lookupRes, setRes, h, ih]

theorem lookupRes_setRes_ne (rs : List (String × ResourceStatus)) (k k' : String)
    (st : ResourceStatus) (h : k' ≠ k) :
    lookupRes (setRes rs k st) k' = lookupRes rs k' := by
  induction rs with
  | nil => rfl
  | cons p rs ih =>
    by_cases hp : p.1 = k
    · simp [lookupRes, setRes, hp, Ne.symm h, ih]
    · by_cases hq : p.1 = k' <;> simp [lookupRes, setRes, hp, hq, h, Ne.symm h, ih]

theorem lookupRes_append_none (rs : List (String × ResourceStatus)) (k : String)
    (st : ResourceStatus) (h : lookupRes rs k = none) :
    lookupRes (rs ++ [(k, st)]) k = some st := by
  induction rs with
  | nil => simp [lookupRes]
  | cons p rs ih =>
    by_cases hp : p.1 = k
    · simp [lookupRes, hp] at h
    · simp only [lookupRes, hp, if_neg] at h
      simpa [lookupRes, hp] using ih h

theorem lookupRes_append_ne (rs : List (String × ResourceStatus)) (k k' : String)
    (st : ResourceStatus) (h : k' ≠ k) :
    lookupRes (rs ++ [(k, st)]) k' = lookupRes rs k' := by
  induction rs with
  | nil => simp [lookupRes, Ne.symm h]
  | cons p rs ih => by_cases hp : p.1 = k' <;> simp [lookupRes, hp, ih]

/-! ## C2: StartTask failure cases -/

/-- C2: StartTask failure cases are atomic.  When no stage channel exists for
`key` the result is `no staged task` and the state is untouched; when the
channel holds no task (the sentinel is read back) the result is
`no staged task`; when a task is staged but the resource is locked the result
is `resource unavailable`, the slot still exists afterwards holding exactly
the original staged task (status untouched), nothing is persisted and the
database and resources are unchanged. -/
theorem startTask_failure_atomic (s : Sys) (key : String) :
    (lookupStage s.stage key = none →
      (StartTask s key).res = OpResult.err NoStagedTaskError ∧
        (StartTask s key).state = s)
    ∧ (lookupStage s.stage key = some [] →
      (StartTask s key).res = OpResult.err NoStagedTaskError)
    ∧ (∀ t : Task, lookupStage s.stage key = some [some t] →
      lookupRes s.resources key = some ResourceStatus.locked →
      (StartTask s key).res = OpResult.err ResourceUnavailableError ∧
        lookupStage (StartTask s key).state.stage key = some [some t] ∧
        (StartTask s key).state.db = s.db ∧
        (StartTask s key).state.resources = s.resources ∧
        (StartTask s key).savedTasks = [] ∧
        (StartTask s key).events = []) := by
  refine ⟨fun h => ?_, fun h => ?_, fun t h hl => ?_⟩
  · simp [StartTask, h]
  · simp [StartTask, h]
  · have hs : lookupStage (setStage s.stage key [some t]) key = some [some t] := by
      rw [lookupStage_setStage_self, h]
      rfl
    simp [StartTask, h, hl]
    exact hs

/-- Witness for C2 at a concrete state: a staged task for a locked
resource. -/
theorem startTask_failure_atomic_witness :
    (StartTask
        ⟨[("w", ResourceStatus.locked)],
         [("w", [some ⟨"t1", "w", "", 1, none, StatusPending⟩])], [], []⟩
        "w").res = OpResult.err ResourceUnavailableError ∧
    lookupStage
        (StartTask
          ⟨[("w", ResourceStatus.locked)],
           [("w", [some ⟨"t1", "w", "", 1, none, StatusPending⟩])], [], []⟩
          "w").state.stage "w" = some [some ⟨"t1", "w", "", 1, none, StatusPending⟩] := by
  have h := (startTask_failure_atomic
    ⟨[("w", ResourceStatus.locked)],
     [("w", [some ⟨"t1", "w", "", 1, none, StatusPending⟩])], [], []⟩
    "w").2.2 ⟨"t1", "w", "", 1, none, StatusPending⟩ (by decide) (by decide)
  exact ⟨h.1, h.2.1⟩

/-! ## C4 and C5: AddTask routing and failure atomicity -/

/-- C4: AddTask routing.  When `runAt` is set (whether or not a priority was
also provided) the enqueue call is `insert` on the timetable host with
`{key, id, runAt}` and a numeric 0 result sets the status to `scheduled`;
when `runAt` is absent the call is `push` on the priority-queue host with
`{key, id, priority}` and a numeric 0 result sets the status to `queued`;
any non-zero numeric result produces the error `task add failed`. -/
theorem addTask_routing (t : Task) (reply : BrokerReply) (db : List Task) :
    (∀ r : String, t.runAt = some r →
      (AddTask t reply db).call =
        ⟨Host.timetable, "insert", t.key, t.id, none, some r⟩)
    ∧ (t.runAt = none →
      (AddTask t reply db).call =
        ⟨Host.priorityQueue, "push", t.key, t.id, some t.priority, none⟩)
    ∧ (∀ r : String, t.runAt = some r → reply = BrokerReply.num 0 →
      (AddTask t reply db).res = OpResult.ok ∧
        (AddTask t reply db).task.status = StatusScheduled)
    ∧ (t.runAt = none → reply = BrokerReply.num 0 →
      (AddTask t reply db).res = OpResult.ok ∧
        (AddTask t reply db).task.status = StatusQueued)
    ∧ (∀ n : ℤ, reply = BrokerReply.num n → n ≠ 0 →
      (AddTask t reply db).res = OpResult.err TaskAddFailedError) := by
  refine ⟨fun r hr => ?_, fun hr => ?_, fun r hr hn => ?_, fun hr hn => ?_,
    fun n hn h0 => ?_⟩
  · cases reply with
    | errObj msg => simp [AddTask, hr]
    | num n => by_cases h0 : n = 0 <;> simp [AddTask, hr, h0]
  · cases reply with
    | errObj msg => simp [AddTask, hr]
    | num n => by_cases h0 : n = 0 <;> simp [AddTask, hr, h0]
  · subst hn; simp [AddTask, hr]
  · subst hn; simp [AddTask, hr]
  · subst hn; simp [AddTask, h0]

/-- Witness for C4: a task with both `runAt` and a priority set goes to the
timetable and becomes `scheduled` on result 0. -/
theorem addTask_routing_witness :
    (AddTask ⟨"t1", "w", "", 5, some "2017-01-01T12:00:00Z", StatusCreated⟩
        (BrokerReply.num 0) []).call =
      ⟨Host.timetable, "insert", "w", "t1", none, some "2017-01-01T12:00:00Z"⟩ ∧
    (AddTask ⟨"t1", "w", "", 5, some "2017-01-01T12:00:00Z", StatusCreated⟩
        (BrokerReply.num 0) []).task.status = StatusScheduled := by
  have h := addTask_routing
    ⟨"t1", "w", "", 5, some "2017-01-01T12:00:00Z", StatusCreated⟩
    (BrokerReply.num 0) []
  exact ⟨h.1 "2017-01-01T12:00:00Z" rfl, (h.2.2.1 "2017-01-01T12:00:00Z" rfl rfl).2⟩

/-- C5: AddTask external-failure atomicity.  Whenever the broker reply is an
error object or a non-zero numeric result, AddTask returns an error, the
task's status field is unchanged, nothing is handed to `Save`, and the
persisted collection is unchanged. -/
theorem addTask_failure_atomic (t : Task) (reply : BrokerReply) (db : List Task) :
    (∀ msg : String, reply = BrokerReply.errObj msg →
      (AddTask t reply db).res = OpResult.err msg ∧
        (AddTask t reply db).task = t ∧
        (AddTask t reply db).savedTasks = [] ∧
        (AddTask t reply db).db = db)
    ∧ (∀ n : ℤ, reply = BrokerReply.num n → n ≠ 0 →
      (AddTask t reply db).res = OpResult.err TaskAddFailedError ∧
        (AddTask t reply db).task = t ∧
        (AddTask t reply db).savedTasks = [] ∧
        (AddTask t reply db).db = db) := by
  refine ⟨fun msg hm => ?_, fun n hn h0 => ?_⟩
  · subst hm; simp [AddTask]
  · subst hn; simp [AddTask, h0]

/-- Witness for C5: a non-zero numeric result leaves everything unchanged. -/
theorem addTask_failure_atomic_witness :
    (AddTask ⟨"t1", "w", "", 5, none, StatusCreated⟩ (BrokerReply.num 1) []).res =
      OpResult.err TaskAddFailedError ∧
    (AddTask ⟨"t1", "w", "", 5, none, StatusCreated⟩ (BrokerReply.num 1) []).task =
      ⟨"t1", "w", "", 5, none, StatusCreated⟩ ∧
    (AddTask ⟨"t1", "w", "", 5, none, StatusCreated⟩ (BrokerReply.num 1) []).savedTasks =
      [] := by
  have h := (addTask_failure_atomic ⟨"t1", "w", "", 5, none, StatusCreated⟩
    (BrokerReply.num 1) []).2 1 rfl (by decide)
  exact ⟨h.1, h.2.1, h.2.2.1⟩

/-! ## C6: CompleteTask preconditions -/

/-- Counterexample to C6 as stated: on a state holding a started task,
CompleteTask succeeds with the status value "bogus" — which is none of
complete/cancelled/error — and assigns it to the task. -/
theorem completeTask_unvalidated_status :
    (CompleteTask
        ⟨[("w", ResourceStatus.locked)], [],
         [⟨"t1", "w", "", 1, none, StatusStarted⟩], []⟩
        "t1" "bogus").res = OpResult.ok ∧
    queryById
        (CompleteTask
          ⟨[("w", ResourceStatus.locked)], [],
           [⟨"t1", "w", "", 1, none, StatusStarted⟩], []⟩
          "t1" "bogus").state.db "t1" =
      [⟨"t1", "w", "", 1, none, "bogus"⟩] := by
  constructor <;> rfl

/-- C6 amended: CompleteTask succeeds exactly when a task with the given id
exists (otherwise `task not found`) and its status is `started` (otherwise
`task not started`); the terminal status argument is not validated — any
string, terminal or not, is accepted and assigned to the task. -/
theorem completeTask_conditions (s : Sys) (taskId status : String) :
    (queryById s.db taskId = [] →
      (CompleteTask s taskId status).res = OpResult.err TaskNotFoundError ∧
        (CompleteTask s taskId status).state = s)
    ∧ (∀ task rest, queryById s.db taskId = task :: rest →
      task.status ≠ StatusStarted →
      (CompleteTask s taskId status).res = OpResult.err TaskNotStartedError ∧
        (CompleteTask s taskId status).state = s)
    ∧ (∀ task rest, queryById s.db taskId = task :: rest →
      task.status = StatusStarted →
      (lookupRes s.resources task.key).isSome →
      (CompleteTask s taskId status).res = OpResult.ok ∧
        (CompleteTask s taskId status).state.db =
          saveTask s.db { task with status := status } ∧
        (CompleteTask s taskId status).savedTasks =
          [{ task with status := status }]) := by
  refine ⟨fun h => ?_, fun task rest h hst => ?_, fun task rest h hst hreg => ?_⟩
  · simp [CompleteTask, h]
  · simp [CompleteTask, h, hst]
  · rw [Option.isSome_iff_exists] at hreg
    obtain ⟨st0, hr⟩ := hreg
    simp [CompleteTask, h, hst, hr]

/-- Witness for the amended C6: a concrete started task completed with the
status `cancelled`. -/
theorem completeTask_conditions_witness :
    (CompleteTask
        ⟨[("w", ResourceStatus.locked)], [],
         [⟨"t1", "w", "", 1, none, StatusStarted⟩], []⟩
        "t1" StatusCancelled).res = OpResult.ok ∧
    (CompleteTask
        ⟨[("w", ResourceStatus.locked)], [],
         [⟨"t1", "w", "", 1, none, StatusStarted⟩], []⟩
        "t1" StatusCancelled).savedTasks =
      [⟨"t1", "w", "", 1, none, StatusCancelled⟩] := by
  have h := (completeTask_conditions
    ⟨[("w", ResourceStatus.locked)], [],
     [⟨"t1", "w", "", 1, none, StatusStarted⟩], []⟩
    "t1" StatusCancelled).2.2 ⟨"t1", "w", "", 1, none, StatusStarted⟩ []
    (by decide) (by decide) (by decide)
  exact ⟨h.1, h.2.2⟩

/-! ## C7: StageTask idempotence -/

/-- C7: StageTask is a no-op when a slot already exists for the task's key
(no status change, no persist, no new channel, no event); staging twice
with `changeStatus = true` therefore leaves exactly one staged pending task
for the key, the first call having transitioned the task to pending and
persisted it. -/
theorem stageTask_noop (s : Sys) (t : Task) (cs : Bool)
    (h : (lookupStage s.stage t.key).isSome) : StageTask s t cs = ⟨s, [], []⟩ := by
  rw [Option.isSome_iff_exists] at h
  obtain ⟨ch, hch⟩ := h
  simp [StageTask, hch]

theorem stageTask_idempotent (s : Sys) (t : Task) (cs : Bool) :
    ((lookupStage s.stage t.key).isSome → StageTask s t cs = ⟨s, [], []⟩)
    ∧ (lookupStage s.stage t.key = none →
      (StageTask s t true).savedTasks = [{ t with status := StatusPending }] ∧
        (StageTask s t true).state.db =
          saveTask s.db { t with status := StatusPending } ∧
        lookupStage (StageTask s t true).state.stage t.key =
          some [some { t with status := StatusPending }] ∧
        StageTask (StageTask s t true).state t true =
          ⟨(StageTask s t true).state, [], []⟩) := by
  constructor
  · exact stageTask_noop s t cs
  · intro h
    have hlook : lookupStage (StageTask s t true).state.stage t.key =
        some [some { t with status := StatusPending }] := by
      simp only [StageTask, h]
      exact lookupStage_append_none s.stage t.key _ h
    refine ⟨by simp [StageTask, h], by simp [StageTask, h], hlook, ?_⟩
    exact stageTask_noop _ _ _ (by rw [hlook]; rfl)

/-- Witness for C7: staging a concrete task twice. -/
theorem stageTask_idempotent_witness :
    (StageTask sysInit ⟨"t1", "w", "", 1, none, StatusQueued⟩ true).savedTasks =
      [⟨"t1", "w", "", 1, none, StatusPending⟩] ∧
    StageTask (StageTask sysInit ⟨"t1", "w", "", 1, none, StatusQueued⟩ true).state
        ⟨"t1", "w", "", 1, none, StatusQueued⟩ true =
      ⟨(StageTask sysInit ⟨"t1", "w", "", 1, none, StatusQueued⟩ true).state, [], []⟩ := by
  have h := (stageTask_idempotent sysInit ⟨"t1", "w", "", 1, none, StatusQueued⟩ true).2
    (by decide)
  exact ⟨h.1, h.2.2.2⟩

/-! ## C8: GetAverageRunTime -/

/-- For a non-negative argument the Go conversion `int64(x + 0.5)` agrees
with rounding to the nearest integer. -/
theorem ratTrunc_round (x : ℚ) (hx : 0 ≤ x) : ratTrunc (x + 1/2) = round x := by
  rw [ratTrunc, if_pos (by linarith), round_eq]

/-- C8: GetAverageRunTime returns 0 when no stat matches the key; otherwise
it returns the arithmetic mean of the run times of at most the 10 most
recent matching stats (sorted descending by `created`, limit 10) rounded to
the nearest 0.05, i.e. `round(avg * 20) / 20` whenever the average is
non-negative. -/
theorem getAverageRunTime_spec (stats : List TaskStat) (key : String) :
    (stats.filter (fun t => t.key = key) = [] → GetAverageRunTime stats key = 0)
    ∧ (recentStats stats key ≠ [] →
      0 ≤ avgRunTime (recentStats stats key) →
      GetAverageRunTime stats key =
        ((round (avgRunTime (recentStats stats key) * 20) : ℤ) : ℚ) / 20) := by
  constructor
  · intro h
    simp [GetAverageRunTime, recentStats, h, sortByCreatedDesc]
  · intro hne h0
    cases hl : recentStats stats key with
    | nil => exact absurd hl hne
    | cons a l =>
      have h2 : GetAverageRunTime stats key =
          (ratTrunc (avgRunTime (a :: l) * 20 + 1/2) : ℚ) / 20 := by
        simp [GetAverageRunTime, hl, avgRunTime]
      rw [hl] at h0
      rw [h2, ratTrunc_round _ (mul_nonneg h0 (by norm_num))]

/-- Witness for C8: twelve stats with key "w"; only the ten most recent
(created 3..12, run times 3..12) are averaged: avg = 7.5, rounded to 7.5. -/
theorem getAverageRunTime_spec_witness :
    GetAverageRunTime
        [⟨1, "w", 1⟩, ⟨2, "w", 2⟩, ⟨3, "w", 3⟩, ⟨4, "w", 4⟩, ⟨5, "w", 5⟩,
         ⟨6, "w", 6⟩, ⟨7, "w", 7⟩, ⟨8, "w", 8⟩, ⟨9, "w", 9⟩, ⟨10, "w", 10⟩,
         ⟨11, "w", 11⟩, ⟨12, "w", 12⟩] "w" =
      ((round ((15 : ℚ) / 2 * 20) : ℤ) : ℚ) / 20 ∧
    GetAverageRunTime [⟨1, "other", 1⟩] "w" = 0 := by
  constructor
  · have h := (getAverageRunTime_spec
      [⟨1, "w", 1⟩, ⟨2, "w", 2⟩, ⟨3, "w", 3⟩, ⟨4, "w", 4⟩, ⟨5, "w", 5⟩,
       ⟨6, "w", 6⟩, ⟨7, "w", 7⟩, ⟨8, "w", 8⟩, ⟨9, "w", 9⟩, ⟨10, "w", 10⟩,
       ⟨11, "w", 11⟩, ⟨12, "w", 12⟩] "w").2 (by decide)
      (by norm_num [avgRunTime, recentStats, sortByCreatedDesc, insertDesc])
    rw [h]
    norm_num [avgRunTime, recentStats, sortByCreatedDesc, insertDesc]
  · exact (getAverageRunTime_spec [⟨1, "other", 1⟩] "w").1 (by decide)

/-! ## C10: RemoveTaskParams.FromPositional -/

/-- C10: the positional parameter parser for removeTask only rejects arrays
shorter than 2, then unconditionally reads index 3: arrays of length 2 or 3
hit an index-out-of-range panic instead of a validation error, and arrays of
length at least 4 yield the fourth element (index 3), not the first, as the
task id. -/
theorem removeTaskFromPositional_spec (args : List String) :
    (args.length < 2 →
      removeTaskFromPositional args =
        ParseOut.err "key and id paramters are required")
    ∧ (args.length = 2 ∨ args.length = 3 →
      removeTaskFromPositional args = ParseOut.panic)
    ∧ (∀ v : String, args.get? 3 = some v →
      removeTaskFromPositional args = ParseOut.ok v) := by
  refine ⟨fun h => ?_, fun h => ?_, fun v hv => ?_⟩
  · simp [removeTaskFromPositional, h]
  · have hlen : ¬ args.length < 2 := by rcases h with h | h <;> omega
    have hget : args.get? 3 = none := by
      rw [List.get?_eq_none]
      rcases h with h | h <;> omega
    rw [List.get?_eq_getElem?] at hget
    simp [removeTaskFromPositional, hlen, hget]
  · have h3 : 3 < args.length := by
      by_contra hc
      rw [List.get?_len_le (by omega)] at hv
      exact Option.noConfusion hv
    have hlen : ¬ args.length < 2 := by omega
    rw [List.get?_eq_getElem?] at hv
    simp [removeTaskFromPositional, hlen, hv]

/-- Witness for C10: a two-element array panics; a four-element array takes
the fourth element as the id. -/
theorem removeTaskFromPositional_spec_witness :
    removeTaskFromPositional ["k", "id"] = ParseOut.panic ∧
    removeTaskFromPositional ["a", "b", "c", "theId"] = ParseOut.ok "theId" := by
  exact ⟨(removeTaskFromPositional_spec ["k", "id"]).2.1 (Or.inl rfl),
    (removeTaskFromPositional_spec ["a", "b", "c", "theId"]).2.2 "theId" rfl⟩

/-! ## C3: the removeTask RPC registration -/

/-- C3: the method name `removeTask` is registered with the StartTask
handler (src/api.go line 384), not the RemoveTask handler: the dispatched
handler invokes the controller's StartTask operation and fails with error
code -32011, whereas the RemoveTask handler (error code -32010, invoking
RemoveTask) is never registered. -/
theorem removeTask_misregistered :
    apiRegistrations.lookup "removeTask" = some ApiHandler.startTask ∧
    apiRegistrations.lookup "removeTask" ≠ some ApiHandler.removeTask ∧
    handlerCtrlOp ApiHandler.startTask = CtrlOpName.startTask ∧
    handlerErrorCode ApiHandler.startTask = -32011 ∧
    handlerErrorCode ApiHandler.removeTask = -32010 ∧
    (∀ p : String × ApiHandler, p ∈ apiRegistrations →
      p.2 ≠ ApiHandler.removeTask) := by
  refine ⟨by decide, by decide, by decide, by decide, by decide, by decide⟩

/-! ## C9: StartTask on an unregistered resource -/

theorem addResource_stage_db (s : Sys) (n : String) :
    (AddResource s n).state.stage = s.stage ∧ (AddResource s n).state.db = s.db := by
  by_cases h : (lookupRes s.resources n).isSome <;> simp [AddResource, h]

theorem addResFold_stage (ns : List String) (s : Sys) :
    (addResFold ns s).stage = s.stage := by
  induction ns generalizing s with
  | nil => rfl
  | cons n ns ih =>
    simp only [addResFold, List.foldl_cons] at *
    rw [ih, (addResource_stage_db s n).1]

theorem addResFold_db (ns : List String) (s : Sys) :
    (addResFold ns s).db = s.db := by
  induction ns generalizing s with
  | nil => rfl
  | cons n ns ih =>
    simp only [addResFold, List.foldl_cons] at *
    rw [ih, (addResource_stage_db s n).2]

theorem addResFold_resources_none (ns : List String) (s : Sys) (k : String)
    (h : lookupRes s.resources k = none) (hk : ∀ n ∈ ns, n ≠ k) :
    lookupRes (addResFold ns s).resources k = none := by
  induction ns generalizing s with
  | nil => exact h
  | cons n ns ih =>
    simp only [addResFold, List.foldl_cons] at *
    apply ih
    · by_cases hs : (lookupRes s.resources n).isSome
      · simpa [AddResource, hs] using h
      · have hne : k ≠ n := fun hc => (hk n (by simp)) hc.symm
        simp only [AddResource, hs, if_neg, Bool.false_eq_true, if_false]
        rw [lookupRes_append_ne s.resources n k ResourceStatus.free hne]
        exact h
    · exact fun m hm => hk m (by simp [hm])

theorem stageTask_resources (s : Sys) (t : Task) (cs : Bool) :
    (StageTask s t cs).state.resources = s.resources := by
  cases hch : lookupStage s.stage t.key <;> simp [StageTask, hch]

theorem stageFold_resources (ts : List Task) (s : Sys) :
    (stageFold ts s).resources = s.resources := by
  induction ts generalizing s with
  | nil => rfl
  | cons t ts ih =>
    simp only [stageFold, List.foldl_cons] at *
    rw [ih, stageTask_resources]

theorem stageFold_stage_some (ts : List Task) (s : Sys) (K : String) (v : Chan)
    (h : lookupStage s.stage K = some v) :
    lookupStage (stageFold ts s).stage K = some v := by
  induction ts generalizing s with
  | nil => exact h
  | cons t0 ts ih =>
    simp only [stageFold, List.foldl_cons] at *
    apply ih
    cases hch : lookupStage s.stage t0.key with
    | some ch => simpa [StageTask, hch] using h
    | none =>
      by_cases hK : t0.key = K
      · rw [hK] at hch
        rw [hch] at h
        exact absurd h (by simp)
      · simp only [StageTask, hch]
        rw [lookupStage_append_ne s.stage t0.key K _ (fun hc => hK hc.symm)]
        exact h

theorem stageFold_creates (ts : List Task) (s : Sys) (K : String)
    (hex : ∃ t ∈ ts, t.key = K)
    (hdisj : lookupStage s.stage K = none ∨
      ∃ u : Task, lookupStage s.stage K = some [some u]) :
    ∃ u : Task, lookupStage (stageFold ts s).stage K = some [some u] := by
  induction ts generalizing s with
  | nil => obtain ⟨t, ht, _⟩ := hex; simp at ht
  | cons t0 ts ih =>
    obtain ⟨t, ht, hK⟩ := hex
    simp only [stageFold, List.foldl_cons]
    cases hch : lookupStage s.stage t0.key with
    | some ch =>
      have hs' : (StageTask s t0 false).state = s := by simp [StageTask, hch]
      rw [hs']
      rcases List.mem_cons.mp ht with heq | hmem
      · subst heq
        rcases hdisj with hd | ⟨u, hu⟩
        · rw [hK] at hch; rw [hch] at hd; exact absurd hd (by simp)
        · exact ⟨u, stageFold_stage_some ts s K _ hu⟩
      · exact ih s ⟨t, hmem, hK⟩ hdisj
    | none =>
      by_cases hKt : t0.key = K
      · have hnew : lookupStage (StageTask s t0 false).state.stage K =
            some [some t0] := by
          simp only [StageTask, hch]
          rw [← hKt]
          exact lookupStage_append_none s.stage t0.key _ (hKt ▸ hch)
        exact ⟨t0, stageFold_stage_some ts _ K _ hnew⟩
      · have hst : lookupStage (StageTask s t0 false).state.stage K =
            lookupStage s.stage K := by
          simp only [StageTask, hch]
          exact lookupStage_append_ne s.stage t0.key K _ (fun hc => hKt hc.symm)
        rcases List.mem_cons.mp ht with heq | hmem
        · subst heq; exact absurd hK hKt
        · exact ih _ ⟨t, hmem, hK⟩ (by rw [hst]; exact hdisj)

/-- C9: `StartTask` dereferences the resource for `key` without checking
registration: on any state holding a staged task for an unregistered key it
panics; and the startup recovery of NewApiV1 creates exactly such states,
because it stages every persisted pending task without checking that a
resource is registered for the task's key. -/
theorem startTask_unregistered_panic (rescNames : List String) (db : List Task)
    (t : Task) :
    (∀ (s : Sys) (k : String) (t0 : Task) (rest : Chan),
      lookupStage s.stage k = some (some t0 :: rest) →
      lookupRes s.resources k = none →
      (StartTask s k).res = OpResult.panic)
    ∧ (t ∈ db → t.status = StatusPending → (∀ n ∈ rescNames, n ≠ t.key) →
      lookupRes (bootState rescNames db).resources t.key = none ∧
        (∃ u : Task,
          lookupStage (bootState rescNames db).stage t.key = some [some u]) ∧
        (StartTask (bootState rescNames db) t.key).res = OpResult.panic) := by
  constructor
  · intro s k t0 rest h1 h2
    simp [StartTask, h1, h2]
  · intro hmem hpend hreg
    have hres : lookupRes (bootState rescNames db).resources t.key = none := by
      rw [bootState, stageFold_resources]
      exact addResFold_resources_none rescNames _ t.key rfl hreg
    have hstage : ∃ u : Task,
        lookupStage (bootState rescNames db).stage t.key = some [some u] := by
      rw [bootState]
      apply stageFold_creates
      · exact ⟨t, by simp [List.mem_filter, hmem, hpend], rfl⟩
      · left
        rw [addResFold_stage]
        rfl
    obtain ⟨u, hu⟩ := hstage
    refine ⟨hres, ⟨u, hu⟩, ?_⟩
    simp [StartTask, hu, hres]

/-- Witness for C9: one pending task for key "w" in the database, no
resources persisted: after boot, StartTask "w" panics. -/
theorem startTask_unregistered_panic_witness :
    (StartTask (bootState [] [⟨"t1", "w", "", 1, none, StatusPending⟩]) "w").res =
      OpResult.panic := by
  exact ((startTask_unregistered_panic [] [⟨"t1", "w", "", 1, none, StatusPending⟩]
    ⟨"t1", "w", "", 1, none, StatusPending⟩).2 (by decide) (by decide)
    (by intro n hn; simp at hn)).2.2

/-! ## Database lemmas for the invariant proof -/

theorem startedCount_eq_filter_length (db : List Task) (n : String) :
    startedCount db n =
      (db.filter (fun t => t.key = n ∧ t.status = StatusStarted)).length := by
  induction db with
  | nil => rfl
  | cons t ts ih =>
    by_cases h : t.key = n ∧ t.status = StatusStarted
    · simp [startedCount, List.filter_cons, h, ih]
      omega
    · simp [startedCount, List.filter_cons, h, ih]

theorem startedCount_append (db1 db2 : List Task) (n : String) :
    startedCount (db1 ++ db2) n = startedCount db1 n + startedCount db2 n := by
  induction db1 with
  | nil => simp [startedCount]
  | cons t ts ih =>
    have h2 : startedCount (t :: ts ++ db2) n =
        (if t.key = n ∧ t.status = StatusStarted then 1 else 0) +
          startedCount (ts ++ db2) n := rfl
    rw [h2, ih]
    simp only [startedCount]
    omega

theorem patchStatus_cons (r : Task) (db : List Task) (i st' : String) :
    patchStatus (r :: db) i st' =
      (if r.id = i then { r with status := st' } else r) :: patchStatus db i st' :=
  rfl

theorem patchStatus_no_id (db : List Task) (i st' : String)
    (h : ∀ r ∈ db, r.id ≠ i) : patchStatus db i st' = db := by
  induction db with
  | nil => rfl
  | cons r db ih =>
    rw [patchStatus_cons, if_neg (h r (by simp)), ih (fun r hr => h r (by simp [hr]))]

/-- Patching the status of rows that are not started, to a non-started
status, leaves every started count unchanged. -/
theorem startedCount_patch_noStart (db : List Task) (i st' n : String)
    (h1 : ∀ r ∈ db, r.id = i → r.status ≠ StatusStarted)
    (h2 : st' ≠ StatusStarted) :
    startedCount (patchStatus db i st') n = startedCount db n := by
  induction db with
  | nil => rfl
  | cons r db ih =>
    have ih' := ih (fun r hr hi => h1 r (by simp [hr]) hi)
    rw [patchStatus_cons]
    by_cases hid : r.id = i
    · have hr1 : r.status ≠ StatusStarted := h1 r (by simp) hid
      rw [if_pos hid]
      simp only [startedCount]
      rw [if_neg (by simp [h2]), if_neg (by simp [hr1]), ih']
    · rw [if_neg hid]
      simp only [startedCount, ih']

/-- Patching rows whose key differs from `n` leaves the count at `n`
unchanged. -/
theorem startedCount_patch_keyNe (db : List Task) (i st' n : String)
    (h : ∀ r ∈ db, r.id = i → r.key ≠ n) :
    startedCount (patchStatus db i st') n = startedCount db n := by
  induction db with
  | nil => rfl
  | cons r db ih =>
    have ih' := ih (fun r hr hi => h r (by simp [hr]) hi)
    rw [patchStatus_cons]
    by_cases hid : r.id = i
    · have hr1 : r.key ≠ n := h r (by simp) hid
      rw [if_pos hid]
      simp only [startedCount]
      rw [if_neg (by simp [hr1]), if_neg (by simp [hr1]), ih']
    · rw [if_neg hid]
      simp only [startedCount, ih']

/-- Patching the unique row `r0` (key `n`, not started) to `started`
increments the count at `n` by one. -/
theorem startedCount_patch_start (db : List Task) (i n : String) (r0 : Task)
    (huniq : db.Pairwise (fun a b => a.id ≠ b.id)) (hmem : r0 ∈ db)
    (hid : r0.id = i) (hkey : r0.key = n) (hns : r0.status ≠ StatusStarted) :
    startedCount (patchStatus db i StatusStarted) n = startedCount db n + 1 := by
  induction db with
  | nil => simp at hmem
  | cons r db ih =>
    rw [List.pairwise_cons] at huniq
    rw [patchStatus_cons]
    rcases List.mem_cons.mp hmem with heq | hmem'
    · subst heq
      rw [if_pos hid]
      simp only [startedCount]
      rw [if_pos (by simp [hkey]), if_neg (by simp [hns])]
      rw [patchStatus_no_id db i StatusStarted
        (fun r hr hc => (huniq.1 r hr) (by rw [hid]; exact hc.symm))]
      omega
    · have hid' : r.id ≠ i := fun hc => (huniq.1 r0 hmem') (by rw [hc, hid])
      rw [if_neg hid']
      simp only [startedCount]
      rw [ih huniq.2 hmem']
      omega

/-- Patching the unique started row `r0` (key `n`) to a non-started status
decrements the count at `n` by one. -/
theorem startedCount_patch_unStart (db : List Task) (i st' n : String) (r0 : Task)
    (huniq : db.Pairwise (fun a b => a.id ≠ b.id)) (hmem : r0 ∈ db)
    (hid : r0.id = i) (hkey : r0.key = n) (hst : r0.status = StatusStarted)
    (h2 : st' ≠ StatusStarted) :
    startedCount (patchStatus db i st') n + 1 = startedCount db n := by
  induction db with
  | nil => simp at hmem
  | cons r db ih =>
    rw [List.pairwise_cons] at huniq
    rw [patchStatus_cons]
    rcases List.mem_cons.mp hmem with heq | hmem'
    · subst heq
      rw [if_pos hid]
      simp only [startedCount]
      rw [if_neg (by simp [h2]), if_pos (by simp [hkey, hst])]
      rw [patchStatus_no_id db i st'
        (fun r hr hc => (huniq.1 r hr) (by rw [hid]; exact hc.symm))]
      omega
    · have hid' : r.id ≠ i := fun hc => (huniq.1 r0 hmem') (by rw [hc, hid])
      rw [if_neg hid']
      simp only [startedCount]
      have := ih huniq.2 hmem'
      omega

/-- Removing the rows with a given id, none of which is started, leaves
every count unchanged. -/
theorem startedCount_filter_out (db : List Task) (i n : String)
    (h : ∀ r ∈ db, r.id = i → r.status ≠ StatusStarted) :
    startedCount (db.filter (fun r => ¬ r.id = i)) n = startedCount db n := by
  induction db with
  | nil => rfl
  | cons r db ih =>
    have ih' := ih (fun r hr hi => h r (by simp [hr]) hi)
    by_cases hid : r.id = i
    · have hr1 : r.status ≠ StatusStarted := h r (by simp) hid
      rw [List.filter_cons_of_neg (by simp [hid])]
      simp only [startedCount]
      rw [if_neg (by simp [hr1]), ih']
      omega
    · rw [List.filter_cons_of_pos (by simp [hid])]
      simp only [startedCount, ih']

theorem startedCount_pos_of_mem (db : List Task) (n : String) (r : Task)
    (hmem : r ∈ db) (hkey : r.key = n) (hst : r.status = StatusStarted) :
    0 < startedCount db n := by
  induction db with
  | nil => simp at hmem
  | cons t ts ih =>
    rcases List.mem_cons.mp hmem with heq | hmem'
    · subst heq
      simp only [startedCount, if_pos (And.intro hkey hst)]
      omega
    · have h2 := ih hmem'
      simp only [startedCount]
      omega

/-! ## Structural lemmas for the invariant proof -/

theorem lookupStage_eq_none_iff (sg : List (String × Chan)) (k : String) :
    lookupStage sg k = none ↔ k ∉ sg.map Prod.fst := by
  induction sg with
  | nil => simp [lookupStage]
  | cons p sg ih =>
    by_cases hp : p.1 = k <;> simp [lookupStage, hp, ih, Ne.symm, eq_comm]

theorem lookupRes_eq_none_iff (rs : List (String × ResourceStatus)) (k : String) :
    lookupRes rs k = none ↔ k ∉ rs.map Prod.fst := by
  induction rs with
  | nil => simp [lookupRes]
  | cons p rs ih =>
    by_cases hp : p.1 = k <;> simp [lookupRes, hp, ih, Ne.symm, eq_comm]

theorem mem_of_lookupStage (sg : List (String × Chan)) (k : String) (v : Chan)
    (h : lookupStage sg k = some v) : (k, v) ∈ sg := by
  induction sg with
  | nil => simp [lookupStage] at h
  | cons p sg ih =>
    by_cases hp : p.1 = k
    · simp only [lookupStage, hp, if_pos, Option.some_inj] at h
      have heq : (k, v) = p := by rw [← hp, ← h]
      rw [heq]
      exact List.mem_cons_self p sg
    · simp only [lookupStage, hp, if_neg] at h
      exact List.mem_cons_of_mem p (ih h)

theorem mem_of_lookupRes (rs : List (String × ResourceStatus)) (k : String)
    (st : ResourceStatus) (h : lookupRes rs k = some st) : (k, st) ∈ rs := by
  induction rs with
  | nil => simp [lookupRes] at h
  | cons p rs ih =>
    by_cases hp : p.1 = k
    · simp only [lookupRes, hp, if_pos, Option.some_inj] at h
      have heq : (k, st) = p := by rw [← hp, ← h]
      rw [heq]
      exact List.mem_cons_self p rs
    · simp only [lookupRes, hp, if_neg] at h
      exact List.mem_cons_of_mem p (ih h)

theorem lookupRes_of_mem (rs : List (String × ResourceStatus))
    (p : String × ResourceStatus) (hnodup : (rs.map Prod.fst).Nodup)
    (hmem : p ∈ rs) : lookupRes rs p.1 = some p.2 := by
  induction rs with
  | nil => simp at hmem
  | cons q rs ih =>
    rw [List.map_cons, List.nodup_cons] at hnodup
    rcases List.mem_cons.mp hmem with heq | hmem'
    · subst heq
      simp [lookupRes]
    · have hne : q.1 ≠ p.1 := by
        intro hc
        exact hnodup.1 (hc ▸ List.mem_map_of_mem Prod.fst hmem')
      simp only [lookupRes, hne, if_neg]
      exact ih hnodup.2 hmem'

theorem setRes_keys (rs : List (String × ResourceStatus)) (k : String)
    (st : ResourceStatus) : (setRes rs k st).map Prod.fst = rs.map Prod.fst := by
  induction rs with
  | nil => rfl
  | cons p rs ih =>
    by_cases hp : p.1 = k <;> simp [setRes, hp, ih]

theorem setStage_keys (sg : List (String × Chan)) (k : String) (ch : Chan) :
    (setStage sg k ch).map Prod.fst = sg.map Prod.fst := by
  induction sg with
  | nil => rfl
  | cons p sg ih =>
    by_cases hp : p.1 = k <;> simp [setStage, hp, ih]

theorem deleteStage_sublist (sg : List (String × Chan)) (k : String) :
    (deleteStage sg k).Sublist sg := by
  induction sg with
  | nil => simp [deleteStage]
  | cons p sg ih =>
    by_cases hp : p.1 = k
    · rw [deleteStage, if_pos hp]
      exact ih.cons p
    · rw [deleteStage, if_neg hp]
      exact ih.cons₂ p

theorem setStage_not_mem (sg : List (String × Chan)) (k : String) (v : Chan)
    (h : lookupStage sg k = none) : setStage sg k v = sg := by
  induction sg with
  | nil => rfl
  | cons p sg ih =>
    by_cases hp : p.1 = k
    · simp [lookupStage, hp] at h
    · simp only [lookupStage, hp, if_neg] at h
      rw [setStage, if_neg hp, ih h]

theorem setStage_self_eq (sg : List (String × Chan)) (k : String) (v : Chan)
    (hnodup : (sg.map Prod.fst).Nodup) (h : lookupStage sg k = some v) :
    setStage sg k v = sg := by
  induction sg with
  | nil => rfl
  | cons p sg ih =>
    rw [List.map_cons, List.nodup_cons] at hnodup
    by_cases hp : p.1 = k
    · simp only [lookupStage, hp, if_pos, Option.some_inj] at h
      have hnone : lookupStage sg k = none := by
        rw [lookupStage_eq_none_iff, ← hp]
        exact hnodup.1
      rw [setStage, if_pos hp, setStage_not_mem sg k v hnone, ← h]
    · simp only [lookupStage, hp, if_neg] at h
      rw [setStage, if_neg hp, ih hnodup.2 h]

theorem lookupRes_setRes_isSome (rs : List (String × ResourceStatus))
    (k k' : String) (st : ResourceStatus) :
    (lookupRes (setRes rs k st) k').isSome = (lookupRes rs k').isSome := by
  by_cases h : k' = k
  · subst h
    rw [lookupRes_setRes_self]
    cases lookupRes rs k' <;> simp
  · rw [lookupRes_setRes_ne rs k k' st h]

theorem lookupRes_append_mono (rs l : List (String × ResourceStatus))
    (k : String) (h : (lookupRes rs k).isSome) :
    (lookupRes (rs ++ l) k).isSome := by
  induction rs with
  | nil => simp [lookupRes] at h
  | cons p rs ih =>
    by_cases hp : p.1 = k
    · simp [lookupRes, hp]
    · simp only [lookupRes, hp, if_neg] at h ⊢
      exact ih h

theorem saveTask_fresh (db : List Task) (t : Task)
    (h : ∀ r ∈ db, r.id ≠ t.id) : saveTask db t = db ++ [t] := by
  rw [saveTask, if_neg]
  simp only [List.any_eq_true, not_exists]
  push_neg
  intro r hr
  simp [h r hr]

theorem saveTask_patch (db : List Task) (t : Task) (r0 : Task) (hmem : r0 ∈ db)
    (hid : r0.id = t.id) : saveTask db t = patchStatus db t.id t.status := by
  rw [saveTask, if_pos]
  rw [List.any_eq_true]
  exact ⟨r0, hmem, by simp [hid]⟩

theorem patchStatus_pairwise (db : List Task) (i st' : String)
    (h : db.Pairwise (fun a b => a.id ≠ b.id)) :
    (patchStatus db i st').Pairwise (fun a b => a.id ≠ b.id) := by
  rw [patchStatus, List.pairwise_map]
  apply h.imp
  intro a b hab
  by_cases ha : a.id = i <;> by_cases hb : b.id = i
  · rw [if_pos ha, if_pos hb]; exact hab
  · rw [if_pos ha, if_neg hb]; exact hab
  · rw [if_neg ha, if_pos hb]; exact hab
  · rw [if_neg ha, if_neg hb]; exact hab

theorem mem_patchStatus_of_ne (db : List Task) (i st' : String) (r : Task)
    (hr : r ∈ db) (hne : r.id ≠ i) : r ∈ patchStatus db i st' := by
  rw [patchStatus, List.mem_map]
  exact ⟨r, hr, if_neg hne⟩

theorem of_mem_patchStatus (db : List Task) (i st' : String) (r' : Task)
    (h : r' ∈ patchStatus db i st') :
    ∃ r ∈ db, r' = if r.id = i then { r with status := st' } else r := by
  rw [patchStatus] at h
  obtain ⟨r, hr, heq⟩ := List.mem_map.mp h
  exact ⟨r, hr, heq.symm⟩

theorem pairwise_id_inj (db : List Task)
    (h : db.Pairwise (fun a b => a.id ≠ b.id)) (a b : Task) (ha : a ∈ db)
    (hb : b ∈ db) (hab : a.id = b.id) : a = b := by
  induction db with
  | nil => simp at ha
  | cons r db ih =>
    rw [List.pairwise_cons] at h
    rcases List.mem_cons.mp ha with rfl | ha' <;>
      rcases List.mem_cons.mp hb with rfl | hb'
    · rfl
    · exact absurd hab (h.1 b hb')
    · exact absurd hab.symm (h.1 a ha')
    · exact ih h.2 ha' hb'

theorem nodup_map_inj {α β : Type} (f : α → β) (l : List α)
    (h : (l.map f).Nodup) (a b : α) (ha : a ∈ l) (hb : b ∈ l)
    (hf : f a = f b) : a = b := by
  induction l with
  | nil => simp at ha
  | cons x l ih =>
    rw [List.map_cons, List.nodup_cons] at h
    rcases List.mem_cons.mp ha with rfl | ha' <;>
      rcases List.mem_cons.mp hb with rfl | hb'
    · rfl
    · exact absurd (hf ▸ List.mem_map_of_mem f hb') h.1
    · exact absurd (hf ▸ List.mem_map_of_mem f ha') h.1
    · exact ih h.2 ha' hb'

theorem startedCount_eq_zero (db : List Task) (n : String)
    (h : ∀ r ∈ db, r.key = n → r.status ≠ StatusStarted) :
    startedCount db n = 0 := by
  induction db with
  | nil => rfl
  | cons r db ih =>
    simp only [startedCount]
    rw [if_neg (fun hc => h r (by simp) hc.1 hc.2), ih (fun r hr => h r (by simp [hr]))]

theorem queryById_head (db : List Task) (i : String) (t : Task) (rest : List Task)
    (h : queryById db i = t :: rest) : t ∈ db ∧ t.id = i := by
  have hmem : t ∈ queryById db i := by rw [h]; simp
  rw [queryById, List.mem_filter] at hmem
  exact ⟨hmem.1, by simpa using hmem.2⟩

/-! ## Invariant preservation, operation by operation -/

theorem inv_addResource (s : Sys) (n : String) (h : Inv s) :
    Inv (AddResource s n).state := by
  by_cases hx : (lookupRes s.resources n).isSome
  · simpa [AddResource, hx] using h
  · have hnone : lookupRes s.resources n = none := by
      cases hy : lookupRes s.resources n
      · rfl
      · rw [hy] at hx; simp at hx
    have hstate : (AddResource s n).state =
        { s with resources := s.resources ++ [(n, ResourceStatus.free)] } := by
      simp [AddResource, hx]
    rw [hstate]
    refine ⟨?_, h.uniq, ?_, h.skeys, h.qids, ?_, h.queueInv, h.stageInv, h.stageIds⟩
    · intro k st hk
      by_cases hkn : k = n
      · subst hkn
        rw [lookupRes_append_none s.resources k ResourceStatus.free hnone] at hk
        have hst : st = ResourceStatus.free := by
          injection hk with h2
          exact h2.symm
        subst hst
        rw [if_neg (by decide)]
        apply startedCount_eq_zero
        intro r hr hrk hrs
        have hreg := h.startedReg r hr hrs
        rw [hrk, hnone] at hreg
        simp at hreg
      · rw [lookupRes_append_ne s.resources n k ResourceStatus.free hkn] at hk
        exact h.mutex k st hk
    · rw [List.map_append, List.nodup_append]
      refine ⟨h.rkeys, by simp, ?_⟩
      intro a ha hb
      simp only [List.map_cons, List.map_nil, List.mem_singleton] at hb
      subst hb
      rw [lookupRes_eq_none_iff] at hnone
      exact hnone ha
    · intro r hr hrs
      exact lookupRes_append_mono s.resources _ r.key (h.startedReg r hr hrs)

theorem inv_addTask (s : Sys) (t : Task) (reply : BrokerReply) (h : Inv s)
    (hf : freshId s t.id) : Inv (addTaskStep s t reply) := by
  obtain ⟨hfdb, hfq, hfs⟩ := hf
  cases reply with
  | errObj msg =>
    have hs : addTaskStep s t (BrokerReply.errObj msg) = s := by
      simp [addTaskStep, AddTask]
    rw [hs]
    exact h
  | num nn =>
    by_cases h0 : nn = 0
    · subst h0
      set t' : Task :=
        { t with status := if t.runAt.isSome then StatusScheduled else StatusQueued }
        with ht'
      have hsave : saveTask s.db t' = s.db ++ [t'] :=
        saveTask_fresh s.db t' (fun r hr => hfdb r hr)
      have hstate : addTaskStep s t (BrokerReply.num 0) =
          { s with db := s.db ++ [t'], queue := s.queue ++ [(t.key, t.id)] } := by
        simp only [addTaskStep, AddTask]
        rw [if_neg (by simp)]
        rw [← ht', hsave]
        simp
      have ht'ns : t'.status ≠ StatusStarted := by
        by_cases hq : t.runAt.isSome <;> simp [ht', hq] <;> decide
      rw [hstate]
      refine ⟨?_, ?_, h.rkeys, h.skeys, ?_, ?_, ?_, ?_, ?_⟩
      · intro k st hk
        have hone : startedCount [t'] k = 0 := by
          simp only [startedCount]
          rw [if_neg (fun hc => ht'ns hc.2)]
        rw [startedCount_append, hone, Nat.add_zero]
        exact h.mutex k st hk
      · rw [List.pairwise_append]
        refine ⟨h.uniq, by simp, ?_⟩
        intro a ha b hb
        simp only [List.mem_singleton] at hb
        subst hb
        exact fun hc => (hfdb a ha) hc
      · rw [List.map_append, List.nodup_append]
        refine ⟨h.qids, by simp, ?_⟩
        intro a ha hb
        simp only [List.map_cons, List.map_nil, List.mem_singleton] at hb
        subst hb
        obtain ⟨e, he, hesnd⟩ := List.mem_map.mp ha
        exact (hfq e he) hesnd
      · intro r hr hrs
        rcases List.mem_append.mp hr with hr' | hr'
        · exact h.startedReg r hr' hrs
        · simp only [List.mem_singleton] at hr'
          subst hr'
          exact absurd hrs ht'ns
      · intro e he
        rcases List.mem_append.mp he with he' | he'
        · obtain ⟨row, hrow, hprops⟩ := h.queueInv e he'
          exact ⟨row, List.mem_append_left _ hrow, hprops⟩
        · simp only [List.mem_singleton] at he'
          subst he'
          refine ⟨t', List.mem_append_right _ (by simp), rfl, rfl, ?_⟩
          by_cases hq : t.runAt.isSome <;> simp [ht', hq]
      · intro p hp
        obtain ⟨u, hch, hkey, hst, hrows⟩ := h.stageInv p hp
        refine ⟨u, hch, hkey, hst, ?_⟩
        intro r hr hrid
        rcases List.mem_append.mp hr with hr' | hr'
        · exact hrows r hr' hrid
        · simp only [List.mem_singleton] at hr'
          subst hr'
          have hne := hfs p hp (some u) (by rw [hch]; simp)
          simp only [chanValIdNe] at hne
          exact absurd (show u.id = t.id by rw [← hrid]) hne
      · intro p hp q hq
        exact h.stageIds p hp q hq
    · have hs : addTaskStep s t (BrokerReply.num nn) = s := by
        simp [addTaskStep, AddTask, h0]
      rw [hs]
      exact h

theorem inv_stagePoll (s : Sys) (k taskId : String) (h : Inv s)
    (hq : (k, taskId) ∈ s.queue) (hslot : lookupStage s.stage k = none) :
    Inv (stagePollStep s k taskId) := by
  obtain ⟨row, hrowdb, hrowid, hrowkey, hrowst⟩ := h.queueInv (k, taskId) hq
  have hrowmem : row ∈ queryById s.db taskId := by
    rw [queryById, List.mem_filter]
    exact ⟨hrowdb, by simp [hrowid]⟩
  cases hquery : queryById s.db taskId with
  | nil => rw [hquery] at hrowmem; simp at hrowmem
  | cons t0 rest =>
    obtain ⟨ht0db, ht0id⟩ := queryById_head s.db taskId t0 rest hquery
    have ht0row : t0 = row :=
      pairwise_id_inj s.db h.uniq t0 row ht0db hrowdb (by rw [ht0id, hrowid])
    have ht0key : t0.key = k := by rw [ht0row]; exact hrowkey
    have ht0st : t0.status = StatusQueued ∨ t0.status = StatusScheduled := by
      rw [ht0row]; exact hrowst
    have ht0ns : t0.status ≠ StatusStarted := by
      rcases ht0st with hst | hst <;> rw [hst] <;> decide
    set t0' : Task := { t0 with status := StatusPending } with ht0'
    have hsave : saveTask s.db t0' = patchStatus s.db t0'.id t0'.status :=
      saveTask_patch s.db t0' t0 ht0db rfl
    have hstate : stagePollStep s k taskId =
        { s with
            queue := s.queue.erase (k, taskId)
            db := patchStatus s.db t0.id StatusPending
            stage := s.stage ++ [(t0.key, [some t0'])] } := by
      rw [stagePollStep, if_neg (by rw [hslot]; simp)]
      show (match queryById s.db taskId with
        | [] => ({ s with queue := s.queue.erase (k, taskId) } : Sys)
        | t :: _ =>
          (StageTask { s with queue := s.queue.erase (k, taskId) } t true).state) = _
      rw [hquery]
      show (StageTask { s with queue := s.queue.erase (k, taskId) } t0 true).state = _
      rw [StageTask]
      rw [show lookupStage s.stage t0.key = none from by rw [ht0key]; exact hslot]
      show ({ s with
          queue := s.queue.erase (k, taskId)
          db := saveTask s.db t0'
          stage := s.stage ++ [(t0.key, [some t0'])] } : Sys) = _
      rw [hsave]
    rw [hstate]
    have hpatchNoStart : ∀ n : String,
        startedCount (patchStatus s.db t0.id StatusPending) n =
          startedCount s.db n := by
      intro n
      apply startedCount_patch_noStart
      · intro r hr hrid
        have : r = t0 := pairwise_id_inj s.db h.uniq r t0 hr ht0db hrid
        rw [this]
        exact ht0ns
      · decide
    have hqnodup : s.queue.Nodup := List.Nodup.of_map Prod.snd h.qids
    refine ⟨?_, ?_, h.rkeys, ?_, ?_, ?_, ?_, ?_, ?_⟩
    · intro k' st hk
      rw [hpatchNoStart k']
      exact h.mutex k' st hk
    · exact patchStatus_pairwise s.db t0.id StatusPending h.uniq
    · rw [List.map_append, List.nodup_append]
      refine ⟨h.skeys, by simp, ?_⟩
      intro a ha hb
      simp only [List.map_cons, List.map_nil, List.mem_singleton] at hb
      subst hb
      rw [lookupStage_eq_none_iff] at hslot
      rw [ht0key] at ha
      exact hslot ha
    · exact ((s.queue.erase_sublist (k, taskId)).map Prod.snd).nodup h.qids
    · intro r' hr' hrs
      obtain ⟨r, hr, heq⟩ := of_mem_patchStatus s.db t0.id StatusPending r' hr'
      by_cases hid : r.id = t0.id
      · rw [if_pos hid] at heq
        rw [heq] at hrs
        exact absurd (show StatusPending = StatusStarted from hrs) (by decide)
      · rw [if_neg hid] at heq
        rw [heq] at hrs ⊢
        exact h.startedReg r hr hrs
    · intro e he
      have hemem : e ∈ s.queue := List.mem_of_mem_erase he
      have hene : e ≠ (k, taskId) :=
        (List.Nodup.mem_erase_iff hqnodup).mp he |>.1
      obtain ⟨rowe, hrowe, hrid, hrkey, hrst⟩ := h.queueInv e hemem
      have hesnd : e.2 ≠ taskId := by
        intro hc
        exact hene (nodup_map_inj Prod.snd s.queue h.qids e (k, taskId) hemem hq hc)
      have hridne : rowe.id ≠ t0.id := by
        rw [hrid, ht0id]
        exact hesnd
      exact ⟨rowe, mem_patchStatus_of_ne s.db t0.id StatusPending rowe hrowe hridne,
        hrid, hrkey, hrst⟩
    · intro p hp
      rcases List.mem_append.mp hp with hp' | hp'
      · obtain ⟨u, hch, hkey, hst, hrows⟩ := h.stageInv p hp'
        refine ⟨u, hch, hkey, hst, ?_⟩
        intro r' hr' hrid
        obtain ⟨r, hr, heq⟩ := of_mem_patchStatus s.db t0.id StatusPending r' hr'
        by_cases hid : r.id = t0.id
        · exfalso
          rw [if_pos hid] at heq
          have hr'id : r'.id = t0.id := by rw [heq]; exact hid
          have hu : t0 = u := hrows t0 ht0db (by rw [← hr'id, hrid])
          have : t0.status = StatusPending := by rw [hu, hst]
          rcases ht0st with hx | hx <;> rw [hx] at this <;> exact absurd this (by decide)
        · rw [if_neg hid] at heq
          rw [heq] at hrid ⊢
          exact hrows r hr hrid
      · simp only [List.mem_singleton] at hp'
        subst hp'
        refine ⟨t0', rfl, rfl, rfl, ?_⟩
        intro r' hr' hrid
        obtain ⟨r, hr, heq⟩ := of_mem_patchStatus s.db t0.id StatusPending r' hr'
        have hr'r : r'.id = r.id := by
          by_cases hid : r.id = t0.id
          · rw [if_pos hid] at heq; rw [heq]
          · rw [if_neg hid] at heq; rw [heq]
        have hrid2 : r.id = t0.id := by rw [← hr'r, hrid]
        have : r = t0 := pairwise_id_inj s.db h.uniq r t0 hr ht0db hrid2
        rw [if_pos hrid2, this] at heq
        exact heq
    · intro p hp q hq2 tp tq hchp hchq hids
      rcases List.mem_append.mp hp with hp' | hp' <;>
        rcases List.mem_append.mp hq2 with hq' | hq'
      · exact h.stageIds p hp' q hq' tp tq hchp hchq hids
      · exfalso
        simp only [List.mem_singleton] at hq'
        subst hq'
        have h2 : [some t0'] = [some tq] := hchq
        have htq : tq = t0' := by
          injection h2 with h3 h4
          injection h3 with h5
          exact h5.symm
        obtain ⟨u, hch, hkey, hst, hrows⟩ := h.stageInv p hp'
        rw [hch] at hchp
        have hup : tp = u := by
          injection hchp with h3 h4
          injection h3 with h5
          exact h5.symm
        have ht0u : t0 = u := by
          apply hrows t0 ht0db
          rw [← hup, hids, htq]
        have hcontra : t0.status = StatusPending := by rw [ht0u, hst]
        rcases ht0st with hx | hx <;> rw [hx] at hcontra <;>
          exact absurd hcontra (by decide)
      · exfalso
        simp only [List.mem_singleton] at hp'
        subst hp'
        have h2 : [some t0'] = [some tp] := hchp
        have htp : tp = t0' := by
          injection h2 with h3 h4
          injection h3 with h5
          exact h5.symm
        obtain ⟨u, hch, hkey, hst, hrows⟩ := h.stageInv q hq'
        rw [hch] at hchq
        have huq : tq = u := by
          injection hchq with h3 h4
          injection h3 with h5
          exact h5.symm
        have ht0u : t0 = u := by
          apply hrows t0 ht0db
          rw [← huq, ← hids, htp]
        have hcontra : t0.status = StatusPending := by rw [ht0u, hst]
        rcases ht0st with hx | hx <;> rw [hx] at hcontra <;>
          exact absurd hcontra (by decide)
      · simp only [List.mem_singleton] at hp' hq'
        rw [hp', hq']

theorem mem_deleteStage (sg : List (String × Chan)) (k : String)
    (p : String × Chan) (h : p ∈ deleteStage sg k) : p ∈ sg ∧ p.1 ≠ k := by
  induction sg with
  | nil => simp [deleteStage] at h
  | cons q sg ih =>
    by_cases hq : q.1 = k
    · rw [deleteStage, if_pos hq] at h
      obtain ⟨h1, h2⟩ := ih h
      exact ⟨List.mem_cons_of_mem q h1, h2⟩
    · rw [deleteStage, if_neg hq] at h
      rcases List.mem_cons.mp h with rfl | h'
      · exact ⟨List.mem_cons_self p sg, hq⟩
      · obtain ⟨h1, h2⟩ := ih h'
        exact ⟨List.mem_cons_of_mem q h1, h2⟩

theorem inv_startTask (s : Sys) (k : String) (h : Inv s)
    (hp : (StartTask s k).res ≠ OpResult.panic) : Inv (StartTask s k).state := by
  cases hch : lookupStage s.stage k with
  | none =>
    have hs : (StartTask s k).state = s := by simp [StartTask, hch]
    rw [hs]; exact h
  | some ch =>
    have hpmem : (k, ch) ∈ s.stage := mem_of_lookupStage s.stage k ch hch
    obtain ⟨u, hchu, hukey, hust, hrows⟩ := h.stageInv (k, ch) hpmem
    have hch2 : ch = [some u] := hchu
    subst hch2
    cases hres : lookupRes s.resources k with
    | none =>
      exfalso
      apply hp
      simp [StartTask, hch, hres]
    | some rst =>
      by_cases hlock : rst = ResourceStatus.locked
      · have hstate : (StartTask s k).state = s := by
          simp only [StartTask, hch, hres, if_pos hlock]
          show ({ s with stage := setStage s.stage k [some u] } : Sys) = s
          rw [setStage_self_eq s.stage k [some u] h.skeys hch]
        rw [hstate]; exact h
      · have hune : u.status ≠ StatusStarted := by rw [hust]; decide
        set u' : Task := { u with status := StatusStarted } with hu'
        have hstate : (StartTask s k).state =
            { s with
                resources := setRes s.resources k ResourceStatus.locked
                stage := deleteStage s.stage k
                db := saveTask s.db u' } := by
          simp only [StartTask, hch, hres, if_neg hlock, if_neg hune]
        rw [hstate]
        have hcount0 : startedCount s.db k = 0 := by
          have hm := h.mutex k rst hres
          rw [if_neg hlock] at hm
          exact hm
        -- facts about the saved database
        have hfacts :
            startedCount (saveTask s.db u') k = startedCount s.db k + 1 ∧
            (∀ n : String, n ≠ k →
              startedCount (saveTask s.db u') n = startedCount s.db n) ∧
            (saveTask s.db u').Pairwise (fun a b => a.id ≠ b.id) ∧
            (∀ r' ∈ saveTask s.db u', (r' ∈ s.db ∧ r'.id ≠ u.id) ∨ r' = u') ∧
            (∀ r ∈ s.db, r.id ≠ u.id → r ∈ saveTask s.db u') := by
          by_cases hex : ∃ r ∈ s.db, r.id = u.id
          · obtain ⟨r0, hr0, hr0id⟩ := hex
            have hr0u : r0 = u := hrows r0 hr0 hr0id
            have humem : u ∈ s.db := hr0u ▸ hr0
            have hsave : saveTask s.db u' = patchStatus s.db u.id StatusStarted :=
              saveTask_patch s.db u' u humem rfl
            rw [hsave]
            refine ⟨?_, ?_, patchStatus_pairwise s.db u.id StatusStarted h.uniq,
              ?_, ?_⟩
            · exact startedCount_patch_start s.db u.id k u h.uniq humem rfl hukey hune
            · intro n hn
              apply startedCount_patch_keyNe
              intro r hr hrid
              rw [hrows r hr hrid, hukey]
              exact fun hc => hn hc.symm
            · intro r' hr'
              obtain ⟨r, hr, heq⟩ := of_mem_patchStatus s.db u.id StatusStarted r' hr'
              by_cases hid : r.id = u.id
              · right
                rw [if_pos hid] at heq
                rw [heq, hrows r hr hid]
              · left
                rw [if_neg hid] at heq
                rw [heq]
                exact ⟨hr, hid⟩
            · intro r hr hrid
              exact mem_patchStatus_of_ne s.db u.id StatusStarted r hr hrid
          · push_neg at hex
            have hsave : saveTask s.db u' = s.db ++ [u'] :=
              saveTask_fresh s.db u' (fun r hr => hex r hr)
            rw [hsave]
            have hsingle : ∀ n : String, startedCount [u'] n =
                if u.key = n then 1 else 0 := by
              intro n
              by_cases hn : u.key = n
              · simp only [startedCount]
                rw [if_pos (by simp [hn]), if_pos hn]
              · simp only [startedCount]
                rw [if_neg (by simp [hn]), if_neg hn]
            refine ⟨?_, ?_, ?_, ?_, ?_⟩
            · rw [startedCount_append, hsingle k, if_pos hukey]
            · intro n hn
              rw [startedCount_append, hsingle n,
                if_neg (fun hc => hn (by rw [← hc, hukey])), Nat.add_zero]
            · rw [List.pairwise_append]
              refine ⟨h.uniq, by simp, ?_⟩
              intro a ha b hb
              simp only [List.mem_singleton] at hb
              subst hb
              exact hex a ha
            · intro r' hr'
              rcases List.mem_append.mp hr' with hr'' | hr''
              · exact Or.inl ⟨hr'', hex r' hr''⟩
              · simp only [List.mem_singleton] at hr''
                exact Or.inr hr''
            · intro r hr _
              exact List.mem_append_left _ hr
        obtain ⟨hcountk, hcountne, huniq', hmemsave, hmemkeep⟩ := hfacts
        refine ⟨?_, huniq', ?_, ?_, h.qids, ?_, ?_, ?_, ?_⟩
        · intro k' st hk'
          by_cases hkk : k' = k
          · subst hkk
            rw [lookupRes_setRes_self, hres] at hk'
            have hst : st = ResourceStatus.locked := by
              injection hk' with h2
              exact h2.symm
            subst hst
            rw [if_pos rfl, hcountk, hcount0]
          · rw [lookupRes_setRes_ne s.resources k k' ResourceStatus.locked hkk] at hk'
            rw [hcountne k' hkk]
            exact h.mutex k' st hk'
        · rw [setRes_keys]
          exact h.rkeys
        · exact (((deleteStage_sublist s.stage k).map Prod.fst).nodup) h.skeys
        · intro r' hr' hrs
          rcases hmemsave r' hr' with ⟨hrdb, _⟩ | hru
          · have := h.startedReg r' hrdb hrs
            rw [lookupRes_setRes_isSome]
            exact this
          · subst hru
            rw [show u'.key = k from hukey]
            rw [lookupRes_setRes_self, hres]
            simp
        · intro e he
          obtain ⟨row, hrow, hrid, hrkey, hrst⟩ := h.queueInv e he
          have hrowne : row.id ≠ u.id := by
            intro hc
            have := hrows row hrow hc
            rw [this] at hrst
            rw [hust] at hrst
            rcases hrst with hx | hx <;> exact absurd hx (by decide)
          exact ⟨row, hmemkeep row hrow hrowne, hrid, hrkey, hrst⟩
        · intro p hp2
          obtain ⟨hpold, hpne⟩ := mem_deleteStage s.stage k p hp2
          obtain ⟨v, hchv, hvkey, hvst, hrowsv⟩ := h.stageInv p hpold
          refine ⟨v, hchv, hvkey, hvst, ?_⟩
          intro r' hr' hrid
          rcases hmemsave r' hr' with ⟨hrdb, _⟩ | hru
          · exact hrowsv r' hrdb hrid
          · exfalso
            have hvu : u.id = v.id := by
              rw [← hrid, hru]
            have := h.stageIds (k, [some u]) hpmem p hpold u v rfl hchv hvu
            apply hpne
            rw [← this]
        · intro p hp2 q hq2 tp tq hchp hchq hids
          obtain ⟨hpold, _⟩ := mem_deleteStage s.stage k p hp2
          obtain ⟨hqold, _⟩ := mem_deleteStage s.stage k q hq2
          exact h.stageIds p hpold q hqold tp tq hchp hchq hids

theorem inv_completeTask (s : Sys) (taskId st : String) (h : Inv s)
    (hp : (CompleteTask s taskId st).res ≠ OpResult.panic)
    (hst : st ≠ StatusStarted) : Inv (CompleteTask s taskId st).state := by
  cases hquery : queryById s.db taskId with
  | nil =>
    have hs : (CompleteTask s taskId st).state = s := by
      simp [CompleteTask, hquery]
    rw [hs]; exact h
  | cons task rest =>
    obtain ⟨htaskdb, htaskid⟩ := queryById_head s.db taskId task rest hquery
    by_cases hts : task.status = StatusStarted
    · cases hres : lookupRes s.resources task.key with
      | none =>
        exfalso
        apply hp
        simp [CompleteTask, hquery, hts, hres]
      | some rst =>
        set task' : Task := { task with status := st } with htask'
        have hstate : (CompleteTask s taskId st).state =
            { s with
                resources := setRes s.resources task.key ResourceStatus.free
                db := saveTask s.db task' } := by
          simp [CompleteTask, hquery, hts, hres]
        rw [hstate]
        have hcpos : 0 < startedCount s.db task.key :=
          startedCount_pos_of_mem s.db task.key task htaskdb rfl hts
        have hmx := h.mutex task.key rst hres
        have hrstlocked : rst = ResourceStatus.locked := by
          by_contra hc
          rw [if_neg hc] at hmx
          omega
        rw [hrstlocked, if_pos rfl] at hmx
        have hsave : saveTask s.db task' = patchStatus s.db task.id st :=
          saveTask_patch s.db task' task htaskdb rfl
        have hcountk : startedCount (saveTask s.db task') task.key = 0 := by
          rw [hsave]
          have := startedCount_patch_unStart s.db task.id st task.key task
            h.uniq htaskdb rfl rfl hts hst
          omega
        have hcountne : ∀ n : String, n ≠ task.key →
            startedCount (saveTask s.db task') n = startedCount s.db n := by
          intro n hn
          rw [hsave]
          apply startedCount_patch_keyNe
          intro r hr hrid
          rw [pairwise_id_inj s.db h.uniq r task hr htaskdb (by rw [hrid])]
          exact fun hc => hn hc.symm
        have hmemsave : ∀ r' ∈ saveTask s.db task',
            (r' ∈ s.db ∧ r'.id ≠ task.id) ∨ r' = task' := by
          rw [hsave]
          intro r' hr'
          obtain ⟨r, hr, heq⟩ := of_mem_patchStatus s.db task.id st r' hr'
          by_cases hid : r.id = task.id
          · right
            rw [if_pos hid] at heq
            rw [heq, pairwise_id_inj s.db h.uniq r task hr htaskdb hid]
          · left
            rw [if_neg hid] at heq
            rw [heq]
            exact ⟨hr, hid⟩
        have hmemkeep : ∀ r ∈ s.db, r.id ≠ task.id → r ∈ saveTask s.db task' := by
          rw [hsave]
          intro r hr hrid
          exact mem_patchStatus_of_ne s.db task.id st r hr hrid
        refine ⟨?_, ?_, ?_, h.skeys, h.qids, ?_, ?_, ?_, ?_⟩
        · intro k' st' hk'
          by_cases hkk : k' = task.key
          · subst hkk
            rw [lookupRes_setRes_self, hres] at hk'
            have hst' : st' = ResourceStatus.free := by
              injection hk' with h2
              exact h2.symm
            subst hst'
            rw [if_neg (by decide), hcountk]
          · rw [lookupRes_setRes_ne s.resources task.key k' ResourceStatus.free hkk]
              at hk'
            rw [hcountne k' hkk]
            exact h.mutex k' st' hk'
        · rw [hsave]
          exact patchStatus_pairwise s.db task.id st h.uniq
        · rw [setRes_keys]
          exact h.rkeys
        · intro r' hr' hrs
          rcases hmemsave r' hr' with ⟨hrdb, _⟩ | hru
          · rw [lookupRes_setRes_isSome]
            exact h.startedReg r' hrdb hrs
          · subst hru
            exact absurd (show st = StatusStarted from hrs) hst
        · intro e he
          obtain ⟨row, hrow, hrid, hrkey, hrst⟩ := h.queueInv e he
          have hrowne : row.id ≠ task.id := by
            intro hc
            have heq := pairwise_id_inj s.db h.uniq row task hrow htaskdb hc
            rw [heq, hts] at hrst
            rcases hrst with hx | hx <;> exact absurd hx (by decide)
          exact ⟨row, hmemkeep row hrow hrowne, hrid, hrkey, hrst⟩
        · intro p hp2
          obtain ⟨v, hchv, hvkey, hvst, hrowsv⟩ := h.stageInv p hp2
          refine ⟨v, hchv, hvkey, hvst, ?_⟩
          intro r' hr' hrid
          rcases hmemsave r' hr' with ⟨hrdb, _⟩ | hru
          · exact hrowsv r' hrdb hrid
          · exfalso
            have hvid : task.id = v.id := by rw [← hrid, hru]
            have heq := hrowsv task htaskdb hvid
            rw [heq, hvst] at hts
            exact absurd hts (by decide)
        · exact h.stageIds
    · have hs : (CompleteTask s taskId st).state = s := by
        simp [CompleteTask, hquery, hts]
      rw [hs]; exact h

theorem inv_removeTask (s : Sys) (taskId : String) (reply : BrokerReply)
    (h : Inv s) : Inv (RemoveTask s taskId reply).state := by
  cases hquery : queryById s.db taskId with
  | nil =>
    have hs : (RemoveTask s taskId reply).state = s := by
      simp [RemoveTask, hquery]
    rw [hs]; exact h
  | cons task rest =>
    obtain ⟨htaskdb, htaskid⟩ := queryById_head s.db taskId task rest hquery
    by_cases h1 : task.status ≠ StatusQueued ∧ task.status ≠ StatusScheduled ∧
        task.status ≠ StatusPending
    · have hs : (RemoveTask s taskId reply).state = s := by
        simp [RemoveTask, hquery, h1]
      rw [hs]; exact h
    · have h3 : task.status = StatusQueued ∨ task.status = StatusScheduled ∨
          task.status = StatusPending := by
        by_contra hc
        push_neg at hc
        exact h1 ⟨hc.1, hc.2.1, hc.2.2⟩
      have htns : task.status ≠ StatusStarted := by
        rcases h3 with hx | hx | hx <;> rw [hx] <;> decide
      have hidrows : ∀ r ∈ s.db, r.id = taskId → r.status ≠ StatusStarted := by
        intro r hr hrid
        rw [pairwise_id_inj s.db h.uniq r task hr htaskdb (by rw [hrid, htaskid])]
        exact htns
      have hdbfacts :
          (∀ n : String, startedCount (s.db.filter (fun r => ¬ r.id = taskId)) n =
            startedCount s.db n) ∧
          (s.db.filter (fun r => ¬ r.id = taskId)).Pairwise
            (fun a b => a.id ≠ b.id) ∧
          (∀ r ∈ s.db.filter (fun r => ¬ r.id = taskId), r ∈ s.db) ∧
          (∀ r ∈ s.db, r.id ≠ taskId →
            r ∈ s.db.filter (fun r => ¬ r.id = taskId)) := by
        refine ⟨fun n => startedCount_filter_out s.db taskId n hidrows,
          h.uniq.sublist (List.filter_sublist s.db), ?_, ?_⟩
        · intro r hr
          exact (List.mem_filter.mp hr).1
        · intro r hr hrid
          rw [List.mem_filter]
          exact ⟨hr, by simp [hrid]⟩
      obtain ⟨hcount, huniq', hsub, hkeep⟩ := hdbfacts
      have hinvdb : ∀ queue' : List (String × String),
          (∀ e ∈ queue', e ∈ s.queue ∧ e.2 ≠ taskId) →
          (queue'.map Prod.snd).Nodup →
          Inv { s with
              db := s.db.filter (fun r => ¬ r.id = taskId)
              queue := queue' } := by
        intro queue' hq' hq'nodup
        refine ⟨?_, huniq', h.rkeys, h.skeys, hq'nodup, ?_, ?_, ?_, ?_⟩
        · intro k' st hk'
          rw [hcount k']
          exact h.mutex k' st hk'
        · intro r hr hrs
          exact h.startedReg r (hsub r hr) hrs
        · intro e he
          obtain ⟨hemem, hene⟩ := hq' e he
          obtain ⟨row, hrow, hrid, hrkey, hrst⟩ := h.queueInv e hemem
          have hrowne : row.id ≠ taskId := by rw [hrid]; exact hene
          exact ⟨row, hkeep row hrow hrowne, hrid, hrkey, hrst⟩
        · intro p hp2
          obtain ⟨v, hchv, hvkey, hvst, hrowsv⟩ := h.stageInv p hp2
          exact ⟨v, hchv, hvkey, hvst, fun r' hr' hrid => hrowsv r' (hsub r' hr') hrid⟩
        · exact h.stageIds
      by_cases h2 : task.status = StatusQueued ∨ task.status = StatusScheduled
      · cases reply with
        | errObj msg =>
          have hs : (RemoveTask s taskId (BrokerReply.errObj msg)).state = s := by
            simp [RemoveTask, hquery, h1, h2]
          rw [hs]; exact h
        | num nn =>
          by_cases h0 : nn = 0
          · subst h0
            have hstate : (RemoveTask s taskId (BrokerReply.num 0)).state =
                { s with
                    db := s.db.filter (fun r => ¬ r.id = taskId)
                    queue := s.queue.filter
                      (fun e => ¬ (e.1 = task.key ∧ e.2 = task.id)) } := by
              simp [RemoveTask, hquery, h1, h2]
            rw [hstate]
            apply hinvdb
            · intro e he
              rw [List.mem_filter] at he
              refine ⟨he.1, ?_⟩
              intro hc
              obtain ⟨row, hrow, hrid, hrkey, hrst⟩ := h.queueInv e he.1
              have hrt : row = task :=
                pairwise_id_inj s.db h.uniq row task hrow htaskdb
                  (by rw [hrid, hc, htaskid])
              have he2 := he.2
              simp only [decide_eq_true_eq] at he2
              apply he2
              constructor
              · rw [← hrkey, hrt]
              · rw [← hrid, hrt]
            · exact ((s.queue.filter_sublist).map Prod.snd).nodup h.qids
          · have hs : (RemoveTask s taskId (BrokerReply.num nn)).state = s := by
              simp [RemoveTask, hquery, h1, h2, h0]
            rw [hs]; exact h
      · have hpend : task.status = StatusPending := by
          rcases h3 with hx | hx | hx
          · exact absurd (Or.inl hx) h2
          · exact absurd (Or.inr hx) h2
          · exact hx
        have hstate : (RemoveTask s taskId reply).state =
            { s with db := s.db.filter (fun r => ¬ r.id = taskId) } := by
          simp [RemoveTask, hquery, h1, h2]
        rw [hstate]
        apply hinvdb s.queue
        · intro e he
          refine ⟨he, ?_⟩
          intro hc
          obtain ⟨row, hrow, hrid, hrkey, hrst⟩ := h.queueInv e he
          have hrt : row = task :=
            pairwise_id_inj s.db h.uniq row task hrow htaskdb
              (by rw [hrid, hc, htaskid])
          rw [hrt, hpend] at hrst
          rcases hrst with hx | hx <;> exact absurd hx (by decide)
        · exact h.qids

theorem inv_step (s : Sys) (op : Op) (h : Inv s) (hg : guard s op)
    (hok : completeNotStarted op) : Inv (stepf s op) := by
  cases op with
  | addResource n => exact inv_addResource s n h
  | addTask t reply => exact inv_addTask s t reply h hg
  | stagePoll k taskId => exact inv_stagePoll s k taskId h hg.1 hg.2.2
  | startTask k => exact inv_startTask s k h hg
  | completeTask taskId st => exact inv_completeTask s taskId st h hg hok
  | removeTask taskId reply => exact inv_removeTask s taskId reply h

theorem inv_init : Inv sysInit := by
  refine ⟨?_, ?_, ?_, ?_, ?_, ?_, ?_, ?_, ?_⟩ <;>
    simp [sysInit, MutexCount, lookupRes]

theorem inv_reachableR (s : Sys) (h : ReachableR s) : Inv s := by
  induction h with
  | init => exact inv_init
  | step op hr hg hok ih => exact inv_step _ op ih hg hok

theorem mutexInv_of_inv (s : Sys) (h : Inv s) : MutexInv s := by
  intro p hp
  have hl := lookupRes_of_mem s.resources p h.rkeys hp
  have hm := h.mutex p.1 p.2 hl
  constructor
  · intro hlock
    rw [if_pos hlock] at hm
    exact hm
  · intro hc
    by_contra hnl
    rw [if_neg hnl] at hm
    omega

/-! ## Which operations change a resource's status -/

theorem stagePollStep_resources (s : Sys) (k taskId : String) :
    (stagePollStep s k taskId).resources = s.resources := by
  rw [stagePollStep]
  by_cases hx : (lookupStage s.stage k).isSome
  · rw [if_pos hx]
  · rw [if_neg hx]
    show (match queryById s.db taskId with
      | [] => ({ s with queue := s.queue.erase (k, taskId) } : Sys)
      | t :: _ =>
        (StageTask { s with queue := s.queue.erase (k, taskId) } t
            true).state).resources = s.resources
    cases hq : queryById s.db taskId with
    | nil => rfl
    | cons t rest => exact stageTask_resources _ t true

theorem startTask_resources_cases (s : Sys) (k : String) :
    (StartTask s k).state.resources = s.resources ∨
      (StartTask s k).state.resources = setRes s.resources k ResourceStatus.locked := by
  cases hch : lookupStage s.stage k with
  | none => left; simp [StartTask, hch]
  | some ch =>
    cases ch with
    | nil => left; simp [StartTask, hch]
    | cons front rest =>
      cases front with
      | none => left; simp [StartTask, hch]
      | some task =>
        cases hres : lookupRes s.resources k with
        | none => left; simp [StartTask, hch, hres]
        | some rst =>
          by_cases hlock : rst = ResourceStatus.locked
          · left; simp [StartTask, hch, hres, hlock]
          · by_cases hts : task.status = StatusStarted
            · left; simp [StartTask, hch, hres, hlock, hts]
            · right; simp [StartTask, hch, hres, hlock, hts]

theorem completeTask_resources_cases (s : Sys) (taskId st : String) :
    (CompleteTask s taskId st).state.resources = s.resources ∨
      ∃ key : String, (CompleteTask s taskId st).state.resources =
        setRes s.resources key ResourceStatus.free := by
  cases hq : queryById s.db taskId with
  | nil => left; simp [CompleteTask, hq]
  | cons task rest =>
    by_cases hts : task.status = StatusStarted
    · cases hres : lookupRes s.resources task.key with
      | none => left; simp [CompleteTask, hq, hts, hres]
      | some rst =>
        right
        exact ⟨task.key, by simp [CompleteTask, hq, hts, hres]⟩
    · left; simp [CompleteTask, hq, hts]

theorem removeTask_resources (s : Sys) (taskId : String) (reply : BrokerReply) :
    (RemoveTask s taskId reply).state.resources = s.resources := by
  rw [RemoveTask]
  cases queryById s.db taskId with
  | nil => rfl
  | cons task rest =>
    dsimp only
    split
    · rfl
    · split
      · cases reply with
        | errObj msg => rfl
        | num nn =>
          dsimp only
          split
          · rfl
          · rfl
      · rfl

theorem addTaskStep_resources (s : Sys) (t : Task) (reply : BrokerReply) :
    (addTaskStep s t reply).resources = s.resources := rfl

/-- A locked resource becomes free only through CompleteTask. -/
theorem locked_to_free_only_complete (s : Sys) (op : Op) (k : String)
    (h1 : lookupRes s.resources k = some ResourceStatus.locked)
    (h2 : lookupRes (stepf s op).resources k = some ResourceStatus.free) :
    ∃ i st, op = Op.completeTask i st := by
  cases op with
  | completeTask i st => exact ⟨i, st, rfl⟩
  | addResource n =>
    exfalso
    by_cases hx : (lookupRes s.resources n).isSome
    · have hres : (stepf s (Op.addResource n)).resources = s.resources := by
        simp [stepf, AddResource, hx]
      rw [hres, h1] at h2
      simp at h2
    · have hnone : lookupRes s.resources n = none := by
        cases hy : lookupRes s.resources n
        · rfl
        · rw [hy] at hx; simp at hx
      have hres : (stepf s (Op.addResource n)).resources =
          s.resources ++ [(n, ResourceStatus.free)] := by
        simp [stepf, AddResource, hx]
      rw [hres] at h2
      by_cases hkn : k = n
      · subst hkn
        rw [hnone] at h1
        simp at h1
      · rw [lookupRes_append_ne s.resources n k ResourceStatus.free hkn, h1] at h2
        simp at h2
  | addTask t reply =>
    exfalso
    rw [show (stepf s (Op.addTask t reply)).resources = s.resources from rfl, h1]
      at h2
    simp at h2
  | stagePoll k' taskId =>
    exfalso
    rw [show (stepf s (Op.stagePoll k' taskId)).resources = s.resources from
      stagePollStep_resources s k' taskId, h1] at h2
    simp at h2
  | startTask k' =>
    exfalso
    rcases startTask_resources_cases s k' with hc | hc
    · rw [show (stepf s (Op.startTask k')).resources =
        (StartTask s k').state.resources from rfl, hc, h1] at h2
      simp at h2
    · rw [show (stepf s (Op.startTask k')).resources =
        (StartTask s k').state.resources from rfl, hc] at h2
      by_cases hkk : k = k'
      · subst hkk
        rw [lookupRes_setRes_self, h1] at h2
        simp at h2
      · rw [lookupRes_setRes_ne s.resources k' k ResourceStatus.locked hkk, h1]
          at h2
        simp at h2
  | removeTask taskId reply =>
    exfalso
    rw [show (stepf s (Op.removeTask taskId reply)).resources = s.resources from
      removeTask_resources s taskId reply, h1] at h2
    simp at h2

/-- A resource becomes locked only through StartTask on that very key. -/
theorem to_locked_only_start (s : Sys) (op : Op) (k : String)
    (h1 : lookupRes s.resources k ≠ some ResourceStatus.locked)
    (h2 : lookupRes (stepf s op).resources k = some ResourceStatus.locked) :
    op = Op.startTask k := by
  cases op with
  | startTask k' =>
    rcases startTask_resources_cases s k' with hc | hc
    · exfalso
      rw [show (stepf s (Op.startTask k')).resources =
        (StartTask s k').state.resources from rfl, hc] at h2
      exact h1 h2
    · by_cases hkk : k = k'
      · rw [hkk]
      · exfalso
        rw [show (stepf s (Op.startTask k')).resources =
          (StartTask s k').state.resources from rfl, hc,
          lookupRes_setRes_ne s.resources k' k ResourceStatus.locked hkk] at h2
        exact h1 h2
  | addResource n =>
    exfalso
    by_cases hx : (lookupRes s.resources n).isSome
    · have hres : (stepf s (Op.addResource n)).resources = s.resources := by
        simp [stepf, AddResource, hx]
      rw [hres] at h2
      exact h1 h2
    · have hnone : lookupRes s.resources n = none := by
        cases hy : lookupRes s.resources n
        · rfl
        · rw [hy] at hx; simp at hx
      have hres : (stepf s (Op.addResource n)).resources =
          s.resources ++ [(n, ResourceStatus.free)] := by
        simp [stepf, AddResource, hx]
      rw [hres] at h2
      by_cases hkn : k = n
      · subst hkn
        rw [lookupRes_append_none s.resources k ResourceStatus.free hnone] at h2
        simp at h2
      · rw [lookupRes_append_ne s.resources n k ResourceStatus.free hkn] at h2
        exact h1 h2
  | addTask t reply =>
    exfalso
    rw [show (stepf s (Op.addTask t reply)).resources = s.resources from rfl] at h2
    exact h1 h2
  | stagePoll k' taskId =>
    exfalso
    rw [show (stepf s (Op.stagePoll k' taskId)).resources = s.resources from
      stagePollStep_resources s k' taskId] at h2
    exact h1 h2
  | completeTask taskId st =>
    exfalso
    rcases completeTask_resources_cases s taskId st with hc | ⟨key, hc⟩
    · rw [show (stepf s (Op.completeTask taskId st)).resources =
        (CompleteTask s taskId st).state.resources from rfl, hc] at h2
      exact h1 h2
    · rw [show (stepf s (Op.completeTask taskId st)).resources =
        (CompleteTask s taskId st).state.resources from rfl, hc] at h2
      by_cases hkk : k = key
      · subst hkk
        rw [lookupRes_setRes_self] at h2
        cases lookupRes s.resources k with
        | none => simp at h2
        | some x => simp at h2
      · rw [lookupRes_setRes_ne s.resources key k ResourceStatus.free hkk] at h2
        exact h1 h2
  | removeTask taskId reply =>
    exfalso
    rw [show (stepf s (Op.removeTask taskId reply)).resources = s.resources from
      removeTask_resources s taskId reply] at h2
    exact h1 h2

/-! ## C1: the per-resource mutual exclusion invariant -/

/-- Counterexample to C1 as stated: the mutual-exclusion invariant does not
hold for every reachable state, because CompleteTask accepts the status
value `started`.  The concrete trace addResource "w"; addTask t1 (result 0);
stage poll; startTask "w"; completeTask "t1" "started" reaches a state
whose resource "w" is free while exactly one task with key "w" is
started. -/
theorem mutexInv_counterexample :
    Reachable (⟨[("w", ResourceStatus.free)], [],
      [⟨"t1", "w", "", 1, none, StatusStarted⟩], []⟩ : Sys) ∧
    ¬ MutexInv (⟨[("w", ResourceStatus.free)], [],
      [⟨"t1", "w", "", 1, none, StatusStarted⟩], []⟩ : Sys) := by
  constructor
  · have r1 : Reachable (⟨[("w", ResourceStatus.free)], [], [], []⟩ : Sys) := by
      have h := Reachable.step (Op.addResource "w") Reachable.init (by decide)
      have he : stepf sysInit (Op.addResource "w") =
          ⟨[("w", ResourceStatus.free)], [], [], []⟩ := by decide
      rw [he] at h
      exact h
    have r2 : Reachable (⟨[("w", ResourceStatus.free)], [],
        [⟨"t1", "w", "", 1, none, StatusQueued⟩], [("w", "t1")]⟩ : Sys) := by
      have h := Reachable.step
        (Op.addTask ⟨"t1", "w", "", 1, none, StatusCreated⟩ (BrokerReply.num 0))
        r1 (by decide)
      have he : stepf (⟨[("w", ResourceStatus.free)], [], [], []⟩ : Sys)
          (Op.addTask ⟨"t1", "w", "", 1, none, StatusCreated⟩ (BrokerReply.num 0)) =
          ⟨[("w", ResourceStatus.free)], [],
            [⟨"t1", "w", "", 1, none, StatusQueued⟩], [("w", "t1")]⟩ := by decide
      rw [he] at h
      exact h
    have r3 : Reachable (⟨[("w", ResourceStatus.free)],
        [("w", [some ⟨"t1", "w", "", 1, none, StatusPending⟩])],
        [⟨"t1", "w", "", 1, none, StatusPending⟩], []⟩ : Sys) := by
      have h := Reachable.step (Op.stagePoll "w" "t1") r2 (by decide)
      have he : stepf (⟨[("w", ResourceStatus.free)], [],
          [⟨"t1", "w", "", 1, none, StatusQueued⟩], [("w", "t1")]⟩ : Sys)
          (Op.stagePoll "w" "t1") =
          ⟨[("w", ResourceStatus.free)],
            [("w", [some ⟨"t1", "w", "", 1, none, StatusPending⟩])],
            [⟨"t1", "w", "", 1, none, StatusPending⟩], []⟩ := by decide
      rw [he] at h
      exact h
    have r4 : Reachable (⟨[("w", ResourceStatus.locked)], [],
        [⟨"t1", "w", "", 1, none, StatusStarted⟩], []⟩ : Sys) := by
      have h := Reachable.step (Op.startTask "w") r3 (by decide)
      have he : stepf (⟨[("w", ResourceStatus.free)],
          [("w", [some ⟨"t1", "w", "", 1, none, StatusPending⟩])],
          [⟨"t1", "w", "", 1, none, StatusPending⟩], []⟩ : Sys)
          (Op.startTask "w") =
          ⟨[("w", ResourceStatus.locked)], [],
            [⟨"t1", "w", "", 1, none, StatusStarted⟩], []⟩ := by decide
      rw [he] at h
      exact h
    have h := Reachable.step (Op.completeTask "t1" StatusStarted) r4 (by decide)
    have he : stepf (⟨[("w", ResourceStatus.locked)], [],
        [⟨"t1", "w", "", 1, none, StatusStarted⟩], []⟩ : Sys)
        (Op.completeTask "t1" StatusStarted) =
        ⟨[("w", ResourceStatus.free)], [],
          [⟨"t1", "w", "", 1, none, StatusStarted⟩], []⟩ := by decide
    rw [he] at h
    exact h
  · decide

/-- C1 amended: in every state reachable by traces in which CompleteTask is
never invoked with the status value `started`, every registered resource is
locked exactly when exactly one persisted task with its name is started;
and — for all operations, unrestricted — the only operation transitioning a
locked resource back to free is CompleteTask, and the only operation that
locks a resource `k` is StartTask on `k`. -/
theorem mutex_invariant :
    (∀ s : Sys, ReachableR s → MutexInv s)
    ∧ (∀ (s : Sys) (op : Op) (k : String),
        lookupRes s.resources k = some ResourceStatus.locked →
        lookupRes (stepf s op).resources k = some ResourceStatus.free →
        ∃ i st, op = Op.completeTask i st)
    ∧ (∀ (s : Sys) (op : Op) (k : String),
        lookupRes s.resources k ≠ some ResourceStatus.locked →
        lookupRes (stepf s op).resources k = some ResourceStatus.locked →
        op = Op.startTask k) :=
  ⟨fun s h => mutexInv_of_inv s (inv_reachableR s h),
   locked_to_free_only_complete, to_locked_only_start⟩

/-- Witness for the amended C1 at concrete states: the invariant holds in
the locked state reached by the restricted trace addResource; addTask;
stage poll; startTask, and the attribution conjuncts apply at concrete
freeing and locking transitions. -/
theorem mutex_invariant_witness :
    MutexInv (⟨[("w", ResourceStatus.locked)], [],
      [⟨"t1", "w", "", 1, none, StatusStarted⟩], []⟩ : Sys) ∧
    (∃ i st, (Op.completeTask "t1" StatusComplete : Op) = Op.completeTask i st) ∧
    (Op.startTask "w" : Op) = Op.startTask "w" := by
  refine ⟨?_, ?_, ?_⟩
  · apply mutex_invariant.1
    have r1 : ReachableR (⟨[("w", ResourceStatus.free)], [], [], []⟩ : Sys) := by
      have h := ReachableR.step (Op.addResource "w") ReachableR.init
        (by decide) (by decide)
      have he : stepf sysInit (Op.addResource "w") =
          ⟨[("w", ResourceStatus.free)], [], [], []⟩ := by decide
      rw [he] at h
      exact h
    have r2 : ReachableR (⟨[("w", ResourceStatus.free)], [],
        [⟨"t1", "w", "", 1, none, StatusQueued⟩], [("w", "t1")]⟩ : Sys) := by
      have h := ReachableR.step
        (Op.addTask ⟨"t1", "w", "", 1, none, StatusCreated⟩ (BrokerReply.num 0))
        r1 (by decide) (by decide)
      have he : stepf (⟨[("w", ResourceStatus.free)], [], [], []⟩ : Sys)
          (Op.addTask ⟨"t1", "w", "", 1, none, StatusCreated⟩ (BrokerReply.num 0)) =
          ⟨[("w", ResourceStatus.free)], [],
            [⟨"t1", "w", "", 1, none, StatusQueued⟩], [("w", "t1")]⟩ := by decide
      rw [he] at h
      exact h
    have r3 : ReachableR (⟨[("w", ResourceStatus.free)],
        [("w", [some ⟨"t1", "w", "", 1, none, StatusPending⟩])],
        [⟨"t1", "w", "", 1, none, StatusPending⟩], []⟩ : Sys) := by
      have h := ReachableR.step (Op.stagePoll "w" "t1") r2 (by decide) (by decide)
      have he : stepf (⟨[("w", ResourceStatus.free)], [],
          [⟨"t1", "w", "", 1, none, StatusQueued⟩], [("w", "t1")]⟩ : Sys)
          (Op.stagePoll "w" "t1") =
          ⟨[("w", ResourceStatus.free)],
            [("w", [some ⟨"t1", "w", "", 1, none, StatusPending⟩])],
            [⟨"t1", "w", "", 1, none, StatusPending⟩], []⟩ := by decide
      rw [he] at h
      exact h
    have h := ReachableR.step (Op.startTask "w") r3 (by decide) (by decide)
    have he : stepf (⟨[("w", ResourceStatus.free)],
        [("w", [some ⟨"t1", "w", "", 1, none, StatusPending⟩])],
        [⟨"t1", "w", "", 1, none, StatusPending⟩], []⟩ : Sys)
        (Op.startTask "w") =
        ⟨[("w", ResourceStatus.locked)], [],
          [⟨"t1", "w", "", 1, none, StatusStarted⟩], []⟩ := by decide
    rw [he] at h
    exact h
  · exact mutex_invariant.2.1
      (⟨[("w", ResourceStatus.locked)], [],
        [⟨"t1", "w", "", 1, none, StatusStarted⟩], []⟩ : Sys)
      (Op.completeTask "t1" StatusComplete) "w" (by decide) (by decide)
  · exact mutex_invariant.2.2
      (⟨[("w", ResourceStatus.free)],
        [("w", [some ⟨"t1", "w", "", 1, none, StatusPending⟩])],
        [⟨"t1", "w", "", 1, none, StatusPending⟩], []⟩ : Sys)
      (Op.startTask "w") "w" (by decide) (by decide)

end CCController
